import Mathlib

/-!
A shallow embedding of the LLM resilience core of this repository:

* the structured-output extraction engine `extract_json_from_response` and the
  per-provider JSON post-processing (`backend/app/core/llm_providers.py`),
* the retry controller `call_llm` (`backend/app/workers/analysis_worker.py`),
* the fallback orchestrator `call_llm_with_fallback` and
  `get_available_providers` (`backend/app/core/llm_fallback.py`).

Modelling conventions:

* Python strings are `List Char`; `raise` is `Except.error` carrying the
  exception message; Python `None`-or-string values are `Option (List Char)`.
* Python's `json.loads` is modelled by an executable recursive-descent JSON
  parser over the JSON grammar with integer numbers (no float or `\u`-escape
  inputs occur in any statement below); `re.search` for the two fixed patterns
  of the extraction engine is modelled by a leftmost, non-greedy scan with the
  exact lookahead of each pattern.
* The sampling temperature 0.2 and backoff delays are exact rationals (`ℚ`);
  the arithmetic performed by the code on them is exact in floats as well.
* Remote generation is abstracted by an outcome function (`Nat → GenOutcome`)
  giving the result of each successive `generate()` invocation; sleeps and
  `generate()` invocations are recorded in an event trace.
-/

/-- Convert a string literal to the `List Char` representation used throughout. -/
def chars (s : String) : List Char := s.toList

/-- The backquote character (written via its code point). -/
def btick : Char := Char.ofNat 96

/-- Python's `\s` class and `str.strip()` whitespace: space, tab, LF, CR, VT, FF. -/
def isPySpace (c : Char) : Bool :=
  c = ' ' || c = '\t' || c = '\n' || c = '\r' || c = '\x0b' || c = '\x0c'

/-- Python `str.lower()` (ASCII-faithful; all modelled inputs are ASCII). -/
def lowerStr (s : List Char) : List Char := s.map Char.toLower

/-- `isPre pat s` is true when `pat` is a prefix of `s` (Python `str.startswith`). -/
def isPre : List Char → List Char → Bool
  | [], _ => true
  | _ :: _, [] => false
  | a :: as, b :: bs => a = b && isPre as bs

/-- Python's `needle in hay` substring test. -/
def hasSub : List Char → List Char → Bool
  | [], nd => isPre nd []
  | c :: t, nd => isPre nd (c :: t) || hasSub t nd

/-- Python `str.endswith`. -/
def endsW (s suffix : List Char) : Bool := isPre suffix.reverse s.reverse

/-- Remove trailing Python whitespace. -/
def dropTrailingWs (s : List Char) : List Char :=
  ((s.reverse).dropWhile isPySpace).reverse

/-- Python `str.strip()`. -/
def pyStrip (s : List Char) : List Char :=
  dropTrailingWs (s.dropWhile isPySpace)

/-- JSON values as produced by `json.loads` (numbers restricted to integers;
object key order and duplicates preserved). -/
inductive Json where
  | null : Json
  | bool (b : Bool) : Json
  | num (n : Int) : Json
  | str (s : List Char) : Json
  | arr (elems : List Json) : Json
  | obj (fields : List (List Char × Json)) : Json

/-- Decimal digit character for `n < 10`. -/
def digitChar (n : Nat) : Char := Char.ofNat (48 + n)

/-- Decimal digits of `n`, most significant first (fuel-based division loop). -/
def natCharsAux : Nat → Nat → List Char
  | 0, _ => []
  | f + 1, n => if n < 10 then [digitChar n] else natCharsAux f (n / 10) ++ [digitChar (n % 10)]

/-- Decimal representation of a natural number. -/
def natChars (n : Nat) : List Char := natCharsAux (n + 1) n

/-- Decimal representation of an integer. -/
def intChars (n : Int) : List Char :=
  if n < 0 then '-' :: natChars n.natAbs else natChars n.toNat

/-- `json.dumps`-style escaping of one string character: `"` and `\`, and the
five control characters with single-character escapes; other characters are
emitted raw (characters needing `\uXXXX` are outside this compact model). -/
def escChar (c : Char) : List Char :=
  if c = '"' then ['\\', '"'] else if c = '\\' then ['\\', '\\']
  else if c = '\x08' then ['\\', 'b'] else if c = '\t' then ['\\', 't']
  else if c = '\n' then ['\\', 'n'] else if c = '\x0c' then ['\\', 'f']
  else if c = '\r' then ['\\', 'r'] else [c]

/-- JSON string-body escaping (compact `json.dumps` style). -/
def escapeStr (s : List Char) : List Char :=
  s.flatMap escChar

/-- Serialize a JSON string with its surrounding quotes. -/
def serStr (s : List Char) : List Char := '"' :: (escapeStr s ++ ['"'])

mutual

/-- Compact serialization of a JSON value (no inter-token whitespace),
as a reference serializer for round-trip statements. -/
def serJ : Json → List Char
  | Json.null => chars "null"
  | Json.bool true => chars "true"
  | Json.bool false => chars "false"
  | Json.num n => intChars n
  | Json.str s => serStr s
  | Json.arr xs => '[' :: (serArr xs ++ [']'])
  | Json.obj fs => '{' :: (serObj fs ++ ['}'])

/-- Comma-joined serialization of array elements. -/
def serArr : List Json → List Char
  | [] => []
  | [x] => serJ x
  | x :: y :: t => serJ x ++ (',' :: serArr (y :: t))

/-- Comma-joined serialization of object fields. -/
def serObj : List (List Char × Json) → List Char
  | [] => []
  | [(k, v)] => serStr k ++ (':' :: serJ v)
  | (k, v) :: p :: t => serStr k ++ (':' :: serJ v) ++ (',' :: serObj (p :: t))

end

/-- A character that may appear in a string of a "tame" JSON value: anything
this compact serializer can represent - any non-control character (including
spaces, quotes, braces and brackets), or one of the five control characters
with single-character escapes - except the backquote, which would collide with
the fence markers the scanning strategies key on. -/
def tameChar (c : Char) : Bool :=
  c != btick && (decide (32 ≤ c.toNat)
    || c = '\x08' || c = '\t' || c = '\n' || c = '\x0c' || c = '\r')

mutual

/-- A JSON value all of whose strings (keys and values) consist of tame characters. -/
def tameJson : Json → Bool
  | Json.null => true
  | Json.bool _ => true
  | Json.num _ => true
  | Json.str s => s.all tameChar
  | Json.arr xs => tameArr xs
  | Json.obj fs => tameObj fs

/-- All elements tame. -/
def tameArr : List Json → Bool
  | [] => true
  | x :: t => tameJson x && tameArr t

/-- All keys and values tame. -/
def tameObj : List (List Char × Json) → Bool
  | [] => true
  | (k, v) :: t => k.all tameChar && tameJson v && tameObj t

end

/-- JSON inter-token whitespace (as accepted by `json.loads`). -/
def isJsonWs (c : Char) : Bool := c = ' ' || c = '\t' || c = '\n' || c = '\r'

/-- Skip JSON whitespace. -/
def skipWs (s : List Char) : List Char := s.dropWhile isJsonWs

/-- JSON string escape interpretation (`\uXXXX` is not modelled: no modelled
input contains it). -/
def unescapeChar (c : Char) : Option Char :=
  if c = '"' then some '"'
  else if c = '\\' then some '\\'
  else if c = '/' then some '/'
  else if c = 'b' then some '\x08'
  else if c = 'f' then some '\x0c'
  else if c = 'n' then some '\n'
  else if c = 'r' then some '\r'
  else if c = 't' then some '\t'
  else none

mutual

/-- Parse the body of a JSON string after the opening quote, returning the
decoded string and the remaining input after the closing quote.  Control
characters are rejected, as in strict `json.loads`. -/
def parseStrBody : List Char → Option (List Char × List Char)
  | [] => none
  | c :: r =>
    if c = '"' then some ([], r)
    else if c = '\\' then parseStrEsc r
    else if c.toNat < 32 then none
    else
      match parseStrBody r with
      | none => none
      | some (s, rest) => some (c :: s, rest)

/-- Continue a string body after a backslash: interpret one escape. -/
def parseStrEsc : List Char → Option (List Char × List Char)
  | [] => none
  | e :: r2 =>
    match unescapeChar e with
    | none => none
    | some d =>
      match parseStrBody r2 with
      | none => none
      | some (s, rest) => some (d :: s, rest)

end

/-- Numeric value of a list of decimal digits. -/
def digitsToNat (ds : List Char) : Nat := ds.foldl (fun a c => 10 * a + (c.toNat - 48)) 0

/-- Parse the integer part of a JSON number (`0 | [1-9][0-9]*`), mirroring the
JSON number grammar used by `json.loads` (leading zeros terminate the token). -/
def parseNumCore : List Char → Option (Nat × List Char)
  | [] => none
  | c :: r =>
    if c = '0' then some (0, r)
    else if c.isDigit then
      some (digitsToNat ((c :: r).takeWhile Char.isDigit), (c :: r).dropWhile Char.isDigit)
    else none

/-- Parse a JSON integer with optional sign. -/
def parseNum : List Char → Option (Json × List Char)
  | [] => none
  | c :: r =>
    if c = '-' then
      match parseNumCore r with
      | none => none
      | some (n, rest) => some (Json.num (-(n : Int)), rest)
    else
      match parseNumCore (c :: r) with
      | none => none
      | some (n, rest) => some (Json.num (n : Int), rest)

mutual

/-- Fuel-based recursive-descent parser for a JSON value, positioned at a
non-whitespace character; returns the value and the remaining input. -/
def parseV : Nat → List Char → Option (Json × List Char)
  | 0, _ => none
  | f + 1, s =>
    match s with
    | [] => none
    | c :: r =>
      if c = '{' then parseObjBody f (skipWs r)
      else if c = '[' then parseArrBody f (skipWs r)
      else if c = '"' then
        match parseStrBody r with
        | none => none
        | some (st, rest) => some (Json.str st, rest)
      else if c = 't' then
        if isPre (chars "rue") r then some (Json.bool true, r.drop 3) else none
      else if c = 'f' then
        if isPre (chars "alse") r then some (Json.bool false, r.drop 4) else none
      else if c = 'n' then
        if isPre (chars "ull") r then some (Json.null, r.drop 3) else none
      else if c = '-' || c.isDigit then parseNum (c :: r)
      else none

/-- Parse an array body after `[` (whitespace already skipped). -/
def parseArrBody : Nat → List Char → Option (Json × List Char)
  | 0, _ => none
  | _ + 1, [] => none
  | f + 1, c :: r =>
    if c = ']' then some (Json.arr [], r)
    else
      match parseElems f (c :: r) with
      | none => none
      | some (xs, rest) => some (Json.arr xs, rest)

/-- Parse one-or-more comma-separated elements up to the closing `]`. -/
def parseElems : Nat → List Char → Option (List Json × List Char)
  | 0, _ => none
  | f + 1, s =>
    match parseV f s with
    | none => none
    | some (j, r) =>
      match skipWs r with
      | [] => none
      | c2 :: r2 =>
        if c2 = ',' then
          match parseElems f (skipWs r2) with
          | none => none
          | some (js, r3) => some (j :: js, r3)
        else if c2 = ']' then some ([j], r2)
        else none

/-- Parse an object body after `{` (whitespace already skipped). -/
def parseObjBody : Nat → List Char → Option (Json × List Char)
  | 0, _ => none
  | _ + 1, [] => none
  | f + 1, c :: r =>
    if c = '}' then some (Json.obj [], r)
    else
      match parseFields f (c :: r) with
      | none => none
      | some (fs, rest) => some (Json.obj fs, rest)

/-- Parse one-or-more `"key": value` fields up to the closing `}`. -/
def parseFields : Nat → List Char → Option (List (List Char × Json) × List Char)
  | 0, _ => none
  | _ + 1, [] => none
  | f + 1, c :: r =>
    if c = '"' then
      match parseStrBody r with
      | none => none
      | some (k, r1) =>
        match skipWs r1 with
        | [] => none
        | c1 :: r2 =>
          if c1 = ':' then
            match parseV f (skipWs r2) with
            | none => none
            | some (v, r3) =>
              match skipWs r3 with
              | [] => none
              | c3 :: r4 =>
                if c3 = ',' then
                  match parseFields f (skipWs r4) with
                  | none => none
                  | some (fs, r5) => some ((k, v) :: fs, r5)
                else if c3 = '}' then some ([(k, v)], r4)
                else none
          else none
    else none

end

/-- `json.loads`: skip leading whitespace, parse one value, require only
whitespace to follow.  The fuel `3 * length + 3` dominates the parser's frame
count on any input (at most three frames are opened per consumed character). -/
def parseJson (s : List Char) : Option Json :=
  match parseV (3 * s.length + 3) (skipWs s) with
  | none => none
  | some (j, rest) => if skipWs rest = [] then some j else none

/-! ## Extraction engine (`extract_json_from_response`, llm_providers.py lines 24-104)

The five strategies are translated one-for-one.  The two `re.search` patterns
(strategies 3 and 4) are modelled by an explicit leftmost scan: a position
matches exactly when the pattern matches there, and within a position the
non-greedy bodies take the shortest span whose continuation matches, which is
precisely Python's backtracking behaviour for these patterns. -/

/-- Strategies 1-2: strip fenced-code markers at the edges of the stripped
content, then attempt a direct parse. -/
def strat12 (content0 : List Char) : Option Json :=
  let c1 := pyStrip content0
  let c2 := if isPre (chars "```json") c1 then c1.drop 7
            else if isPre (chars "```") c1 then c1.drop 3
            else c1
  let c3 := if endsW c2 (chars "```") then c2.take (c2.length - 3) else c2
  parseJson (pyStrip c3)

/-- Non-greedy body scan for the fenced-block pattern: find the shortest span
ending in `close` that is followed by optional whitespace and three backquotes.
`acc` is the reversed body consumed so far (with the opening bracket). -/
def ngFenceAux (close : Char) : List Char → List Char → Option (List Char)
  | _, [] => none
  | acc, c :: rest =>
    if c = close && isPre (chars "```") (rest.dropWhile isPySpace) then
      some ((c :: acc).reverse)
    else ngFenceAux close (c :: acc) rest

/-- Strategy 3's pattern tried at one start position: three backquotes, an
optional `json` tag, optional whitespace, then a non-greedy `{...}` or `[...]`
body followed by optional whitespace and a closing fence. -/
def strat3At (s : List Char) : Option (List Char) :=
  if isPre (chars "```") s then
    let s1 := s.drop 3
    let s2 := if isPre (chars "json") s1 then s1.drop 4 else s1
    match s2.dropWhile isPySpace with
    | [] => none
    | c :: rest =>
      if c = '{' then ngFenceAux '}' ['{'] rest
      else if c = '[' then ngFenceAux ']' ['['] rest
      else none
  else none

/-- `re.search` semantics for the fixed patterns: try every start position left
to right and take the first match. -/
def searchSuffixes (f : List Char → Option (List Char)) : List Char → Option (List Char)
  | [] => f []
  | c :: rest =>
    match f (c :: rest) with
    | some r => some r
    | none => searchSuffixes f rest

/-- Strategy 3: parse the interior of the first fenced code block found
anywhere in the original content (first match only, as with `re.search`). -/
def strat3 (orig : List Char) : Option Json :=
  match searchSuffixes strat3At orig with
  | some grp => parseJson grp
  | none => none

/-- The lookahead of strategy 4's patterns: optional whitespace followed by a
blank line, a markdown heading, end of input, or another opening bracket. -/
def lookahead4 : List Char → Bool
  | [] => true
  | c :: rest =>
    (match c :: rest with
     | '\n' :: '\n' :: _ => true
     | '\n' :: '#' :: _ => true
     | '{' :: _ => true
     | '[' :: _ => true
     | _ => false)
    || (isPySpace c && lookahead4 rest)

/-- Non-greedy body scan for strategy 4: shortest span ending in `close` whose
continuation satisfies the lookahead. -/
def ngLookaheadAux (close : Char) : List Char → List Char → Option (List Char)
  | _, [] => none
  | acc, c :: rest =>
    if c = close && lookahead4 rest then some ((c :: acc).reverse)
    else ngLookaheadAux close (c :: acc) rest

/-- Strategy 4's object pattern tried at one start position. -/
def strat4ObjAt : List Char → Option (List Char)
  | '{' :: rest => ngLookaheadAux '}' ['{'] rest
  | _ => none

/-- Strategy 4's array pattern tried at one start position. -/
def strat4ArrAt : List Char → Option (List Char)
  | '[' :: rest => ngLookaheadAux ']' ['['] rest
  | _ => none

/-- Strategy 4: the object pattern, then the array pattern; for each pattern
only the first match is parsed (a parse failure moves to the next pattern). -/
def strat4 (orig : List Char) : Option Json :=
  let fromObj :=
    match searchSuffixes strat4ObjAt orig with
    | some grp => parseJson grp
    | none => none
  match fromObj with
  | some j => some j
  | none =>
    match searchSuffixes strat4ArrAt orig with
    | some grp => parseJson grp
    | none => none

/-- Strategy 5's bracket-depth counting loop from a fixed start position:
`whole` is the suffix starting at the first bracket, `taken` counts processed
characters (bounded by the 50,000-character scan window), and the stack hits
zero at the candidate closing bracket.  A parse failure there ends the scan
for this start character (Python's `break`). -/
def strat5Loop (whole : List Char) : List Char → Nat → Nat → Option Json
  | [], _, _ => none
  | c :: rest, stack, taken =>
    if taken < 50000 then
      if c = '{' || c = '[' then strat5Loop whole rest (stack + 1) (taken + 1)
      else if c = '}' || c = ']' then
        if stack - 1 = 0 then parseJson (whole.take (taken + 1))
        else strat5Loop whole rest (stack - 1) (taken + 1)
      else strat5Loop whole rest stack (taken + 1)
    else none

/-- The suffix of `s` starting at the first occurrence of `c` (Python `str.find`). -/
def findCharSuffix (c : Char) : List Char → Option (List Char)
  | [] => none
  | x :: rest => if x = c then some (x :: rest) else findCharSuffix c rest

/-- Strategy 5 from one start character. -/
def strat5From (orig : List Char) (c : Char) : Option Json :=
  match findCharSuffix c orig with
  | none => none
  | some suffix => strat5Loop suffix suffix 0 0

/-- Strategy 5: try `{` then `[` as the start character. -/
def strat5 (orig : List Char) : Option Json :=
  match strat5From orig '{' with
  | some j => some j
  | none => strat5From orig '['

/-- The first strategy that succeeds wins (Python's sequential `try`/`pass`). -/
def extractCore (content0 : List Char) : Option Json :=
  match strat12 content0 with
  | some j => some j
  | none =>
    match strat3 content0 with
    | some j => some j
    | none =>
      match strat4 content0 with
      | some j => some j
      | none => strat5 content0

/-- The extraction-failure message with its bounded 200-character preview. -/
def extractFailMsg (content0 : List Char) : List Char :=
  chars "No valid JSON found in response. Response starts with: " ++ content0.take 200

/-- `extract_json_from_response`: a parsed value, or the preview-bearing error. -/
def extract_json_from_response (content0 : List Char) : Except (List Char) Json :=
  match extractCore content0 with
  | some j => Except.ok j
  | none => Except.error (extractFailMsg content0)

/-! ## Provider JSON post-processing (llm_providers.py)

Each provider's `generate()` ends, for structured output, with a JSON
post-processing step applied to the raw response text.  Those steps are the
part of `generate()` the claims speak about; the HTTP round trip preceding
them is abstracted away. -/

/-- Values a provider/controller call can produce: raw text, a parsed JSON
value, or Python's implicit `None`. -/
inductive RVal where
  | text (s : List Char) : RVal
  | json (j : Json) : RVal
  | pyNone : RVal

/-- OpenAI's handling of the response content (lines 175-185): for `"json"`,
`json.loads` the content and return `{}` on a parse failure. -/
def openaiPostprocess (response_format content : List Char) : Except (List Char) RVal :=
  if response_format = chars "json" then
    match parseJson content with
    | some j => Except.ok (RVal.json j)
    | none => Except.ok (RVal.json (Json.obj []))
  else Except.ok (RVal.text content)

/-- HuggingFace's handling of the generated text (lines 386-400): identical
`json.loads`-or-`{}` shape. -/
def huggingfacePostprocess (response_format content : List Char) : Except (List Char) RVal :=
  if response_format = chars "json" then
    match parseJson content with
    | some j => Except.ok (RVal.json j)
    | none => Except.ok (RVal.json (Json.obj []))
  else Except.ok (RVal.text content)

/-- Ollama's heuristic for a response that ignored the JSON instruction
(lines 281-287). -/
def isMarkdownTutorial (content : List Char) : Bool :=
  let cl := lowerStr content
  isPre (chars "#") cl
  || hasSub (cl.take 500) (chars "html")
  || hasSub (cl.take 500) (chars "doctype")
  || (hasSub (cl.take 100) (chars "tutorial") && !hasSub (cl.take 500) (chars "json"))

/-- The retriable format-violation message Ollama raises when the markdown
heuristic fires (line 290). -/
def ollamaFormatViolationMsg (content : List Char) : List Char :=
  chars "Ollama model ignored JSON format instruction and returned markdown/tutorial instead. This is a retriable error. Response starts with: "
    ++ content.take 200 ++ chars "..."

/-- The invalid-JSON message Ollama raises otherwise (line 297), carrying the
extraction failure's own message. -/
def ollamaInvalidJsonMsg (content : List Char) : List Char :=
  chars "Invalid JSON response from Ollama: " ++ extractFailMsg content

/-- Ollama's handling of the response content (lines 276-299): route through
the extraction engine and raise on failure - never return a value. -/
def ollamaPostprocess (response_format content : List Char) : Except (List Char) RVal :=
  if response_format = chars "json" then
    match extractCore content with
    | some j => Except.ok (RVal.json j)
    | none =>
      if isMarkdownTutorial content then Except.error (ollamaFormatViolationMsg content)
      else Except.error (ollamaInvalidJsonMsg content)
  else Except.ok (RVal.text content)

/-! ## Retry controller (`call_llm`, analysis_worker.py lines 295-419) -/

/-- The outcome of one `generate()` invocation, indexed by attempt number. -/
inductive GenOutcome where
  | ok (v : RVal) : GenOutcome
  | err (msg : List Char) : GenOutcome

/-- Observable events of a retry-controller run: backoff sleeps and
`generate()` invocations with the temperature passed. -/
inductive LLMEvent where
  | sleep (delay : ℚ) : LLMEvent
  | attemptGenerate (temperature : ℚ) : LLMEvent
  deriving DecidableEq

/-- Result of a `call_llm` run: the returned value or raised message, plus the
event trace. -/
structure CallResult where
  outcome : Except (List Char) RVal
  events : List LLMEvent

/-- The retriable-error test of `call_llm` (lines 365-376). -/
def isRetriableMsg (m : List Char) : Bool :=
  let ml := lowerStr m
  hasSub ml (chars "timed out") || hasSub ml (chars "timeout")
  || hasSub m (chars "503") || hasSub m (chars "502")
  || hasSub ml (chars "temporarily unavailable") || hasSub ml (chars "unavailable")
  || hasSub ml (chars "server error") || hasSub ml (chars "try again later")
  || hasSub ml (chars "ignored json format instruction") || hasSub ml (chars "retriable error")

/-- The quota-error test of `call_llm` (lines 379-384). -/
def isQuotaMsg (m : List Char) : Bool :=
  let ml := lowerStr m
  hasSub ml (chars "quota") || hasSub m (chars "429")
  || hasSub ml (chars "insufficient_quota") || hasSub ml (chars "rate limit")

/-- The auth-error test of `call_llm` (lines 386-390); `and` binds tighter
than `or` exactly as in the Python expression. -/
def isAuthMsg (m : List Char) : Bool :=
  let ml := lowerStr m
  hasSub ml (chars "api key not valid") || hasSub ml (chars "api_key_invalid")
  || (hasSub ml (chars "invalid") && hasSub ml (chars "api key"))

/-- The message raised on a quota error for text output (line 397). -/
def quotaAbortMsg (provider_name : List Char) : List Char :=
  chars "API quota exceeded for " ++ provider_name ++ chars "."

/-- The body of `call_llm`'s retry loop.  `fuel` is the number of loop
iterations remaining (`max_retries - attempt`), `lastE` the last exception.
Each iteration sleeps `retry_delay * 2 ^ (attempt - 1)` before every attempt
but the first, then invokes `generate()` with temperature 0.2. -/
def callLLMGo (gen : Nat → GenOutcome) (response_format provider_name : List Char)
    (max_retries : Nat) (retry_delay : ℚ) :
    Nat → Nat → List LLMEvent → Option (List Char) → CallResult
  | 0, _, evs, lastE =>
    match lastE with
    | some m => ⟨Except.error m, evs⟩
    | none => ⟨Except.ok RVal.pyNone, evs⟩
  | fuel + 1, attempt, evs, _ =>
    let evs1 := if attempt > 0 then evs ++ [LLMEvent.sleep (retry_delay * 2 ^ (attempt - 1))] else evs
    let evs2 := evs1 ++ [LLMEvent.attemptGenerate (1 / 5)]
    match gen attempt with
    | GenOutcome.ok v => ⟨Except.ok v, evs2⟩
    | GenOutcome.err m =>
      if isQuotaMsg m then
        if response_format = chars "json" then ⟨Except.ok (RVal.json (Json.obj [])), evs2⟩
        else ⟨Except.error (quotaAbortMsg provider_name), evs2⟩
      else if isAuthMsg m then ⟨Except.error m, evs2⟩
      else if isRetriableMsg m && decide (attempt < max_retries - 1) then
        callLLMGo gen response_format provider_name max_retries retry_delay fuel (attempt + 1) evs2 (some m)
      else ⟨Except.error m, evs2⟩

/-- `call_llm`: run the retry loop from attempt 0 with an empty trace.  The
temperature is fixed at 0.2 inside the loop; the function exposes no parameter
for it, mirroring the Python signature
`call_llm(provider, prompt, response_format, system_message, max_retries, retry_delay)`. -/
def call_llm (gen : Nat → GenOutcome) (response_format provider_name : List Char)
    (max_retries : Nat) (retry_delay : ℚ) : CallResult :=
  callLLMGo gen response_format provider_name max_retries retry_delay max_retries 0 [] none

/-! ## Fallback orchestrator (llm_fallback.py) -/

/-- `UserSettings` fields read by `get_available_providers`; provider keys are
an ordered association list mirroring the Python dict's insertion order. -/
structure UserSettings where
  llm_provider : Option (List Char)
  llm_api_key : Option (List Char)
  openai_api_key : Option (List Char)
  llm_model : Option (List Char)
  llm_base_url : Option (List Char)
  llm_provider_keys : List (List Char × Option (List Char))

/-- Python truthiness of an optional string (`None` and `""` are falsy). -/
def pyTruthy : Option (List Char) → Bool
  | none => false
  | some [] => false
  | some (_ :: _) => true

/-- Python's `x or default` for optional strings. -/
def pyOrDefault (v : Option (List Char)) (d : List Char) : List Char :=
  match v with
  | some s => if s = [] then d else s
  | none => d

/-- One entry of the available-provider list:
`(provider_type, api_key, model, base_url)` as built by the source. -/
abbrev ProviderEntry := List Char × Option (List Char) × Option (List Char) × Option (List Char)

/-- `get_available_providers` (lines 15-68): the primary provider first (when
not excluded and keyed, with the `openai_api_key` backward-compatibility
fallback), then each entry of `llm_provider_keys` in order (Ollama without a
key; others only with a non-blank key, stripped). -/
def get_available_providers (user_settings : UserSettings)
    (exclude_provider : Option (List Char)) : List ProviderEntry :=
  let primary_provider := pyOrDefault user_settings.llm_provider (chars "openai")
  let primaryList :=
    if exclude_provider ≠ some primary_provider then
      let primary_key :=
        if pyTruthy user_settings.llm_api_key = false ∧ primary_provider = chars "openai" then
          user_settings.openai_api_key
        else user_settings.llm_api_key
      if primary_provider = chars "ollama" ∨ pyTruthy primary_key = true then
        [(primary_provider, primary_key, user_settings.llm_model, user_settings.llm_base_url)]
      else []
    else []
  let keyList := user_settings.llm_provider_keys.flatMap (fun pk =>
    if exclude_provider = some pk.1 then []
    else if lowerStr pk.1 = chars "ollama" then
      [((lowerStr pk.1, none, none, user_settings.llm_base_url) : ProviderEntry)]
    else if pyTruthy pk.2 = true ∧ pyTruthy (pk.2.map pyStrip) = true then
      [((lowerStr pk.1, pk.2.map pyStrip, none, none) : ProviderEntry)]
    else [])
  primaryList ++ keyList

/-- A constructed provider: the configuration the factory resolves.  The
behaviour of its `generate()` is abstracted by the orchestrator's outcome
function. -/
structure ProviderCfg where
  kind : List Char
  model : List Char
  base_url : List Char

/-- `create_llm_provider` (llm_providers.py lines 786-858): lowercase the
kind, demand a truthy key for every provider except Ollama, and resolve the
default model (Ollama's environment defaults are modelled as unset). -/
def create_llm_provider (provider_type : List Char) (api_key : Option (List Char))
    (model : Option (List Char)) (base_url : Option (List Char)) :
    Except (List Char) ProviderCfg :=
  let pt := lowerStr provider_type
  if pt = chars "openai" then
    if pyTruthy api_key then Except.ok ⟨pt, pyOrDefault model (chars "gpt-4o"), []⟩
    else Except.error (chars "OpenAI requires an API key")
  else if pt = chars "ollama" then
    Except.ok ⟨pt, pyOrDefault model (chars "llama3"),
      pyOrDefault base_url (chars "http://localhost:11434")⟩
  else if pt = chars "huggingface" then
    if pyTruthy api_key then
      Except.ok ⟨pt, pyOrDefault model (chars "mistralai/Mistral-7B-Instruct-v0.2"), []⟩
    else Except.error (chars "HuggingFace requires an API key")
  else if pt = chars "together" then
    if pyTruthy api_key then
      Except.ok ⟨pt, pyOrDefault model (chars "meta-llama/Llama-3-8b-chat-hf"), []⟩
    else Except.error (chars "Together AI requires an API key")
  else if pt = chars "groq" then
    if pyTruthy api_key then Except.ok ⟨pt, pyOrDefault model (chars "llama-3.1-8b-instant"), []⟩
    else Except.error (chars "Groq requires an API key")
  else if pt = chars "replicate" then
    if pyTruthy api_key then Except.ok ⟨pt, pyOrDefault model (chars "meta/llama-3-8b-instruct"), []⟩
    else Except.error (chars "Replicate requires an API key")
  else if pt = chars "gemini" then
    if pyTruthy api_key then Except.ok ⟨pt, pyOrDefault model (chars "gemini-pro"), []⟩
    else Except.error (chars "Gemini requires an API key")
  else Except.error (chars "Unknown provider type: " ++ provider_type)

/-- Observable events of an orchestrated call: provider construction
(`create_llm_provider` invocations) and `generate()` invocations, tagged with
the position in the candidate list. -/
inductive FBEvent where
  | construct (idx : Nat) (provider_type : List Char) : FBEvent
  | invokeGenerate (idx : Nat) (provider_type : List Char) (temperature : ℚ) : FBEvent

/-- Result of an orchestrated call: the returned `(response, provider_type)`
or the raised message, the accumulated error log, and the event trace. -/
structure FallbackResult where
  outcome : Except (List Char) (RVal × List Char)
  errors : List (List Char × List Char)
  events : List FBEvent

/-- Python's `"; ".join`. -/
def joinWith (sep : List Char) : List (List Char) → List Char
  | [] => []
  | [x] => x
  | x :: y :: t => x ++ sep ++ joinWith sep (y :: t)

/-- The aggregate message raised when every attempted provider fails
(lines 171-175), with each message truncated to 50 characters. -/
def aggregateFailMsg (errors : List (List Char × List Char)) : List Char :=
  chars "All LLM providers failed. Errors: "
    ++ joinWith (chars "; ") (errors.map (fun pe => pe.1 ++ chars ": " ++ pe.2.take 50))
    ++ chars ". Please check your API keys and quotas."

/-- The provider loop of `call_llm_with_fallback` (lines 104-175): construct
each enumerated provider, invoke its `generate()` once directly (temperature
0.2), return on the first success, append `(provider_type, message)` to the
error log on any failure and continue; raise the aggregate error after the
last candidate.  The error-classification block of the source only selects a
log line and is not modelled. -/
def fbLoop (w : Nat → GenOutcome) :
    List (Nat × ProviderEntry) → List (List Char × List Char) → List FBEvent → FallbackResult
  | [], errors, events => ⟨Except.error (aggregateFailMsg errors), errors, events⟩
  | (idx, entry) :: rest, errors, events =>
    let provider_type := entry.1
    let events1 := events ++ [FBEvent.construct idx provider_type]
    match create_llm_provider entry.1 entry.2.1 entry.2.2.1 entry.2.2.2 with
    | Except.error e => fbLoop w rest (errors ++ [(provider_type, e)]) events1
    | Except.ok _ =>
      let events2 := events1 ++ [FBEvent.invokeGenerate idx provider_type (1 / 5)]
      match w idx with
      | GenOutcome.ok v => ⟨Except.ok (v, provider_type), errors, events2⟩
      | GenOutcome.err m => fbLoop w rest (errors ++ [(provider_type, m)]) events2

/-- `call_llm_with_fallback` (lines 71-175): build the candidate list, fail
fast when it is empty, and otherwise run the loop over the first
`max_retries` candidates.  `w` abstracts the outcome of each candidate's
single `generate()` invocation; the function exposes no sampling-temperature
parameter, mirroring the Python signature
`call_llm_with_fallback(user_settings, prompt, response_format, system_message, max_retries)`. -/
def call_llm_with_fallback (user_settings : UserSettings) (w : Nat → GenOutcome)
    (max_retries : Nat) : FallbackResult :=
  let available := get_available_providers user_settings none
  if available = [] then
    ⟨Except.error (chars "No LLM providers configured. Please add at least one API key."), [], []⟩
  else fbLoop w (available.take max_retries).enum [] []

/-! ## Auxiliary definitions for the statements -/

/-- The events one loop iteration of `call_llm` appends for attempt `a`:
a backoff sleep of `d * 2 ^ (a - 1)` before every attempt but the first,
then the `generate()` invocation. -/
def backoffPiece (d : ℚ) (a : Nat) : List LLMEvent :=
  (if a = 0 then [] else [LLMEvent.sleep (d * 2 ^ (a - 1))]) ++ [LLMEvent.attemptGenerate (1 / 5)]

/-- The event trace of `len` consecutive attempts starting at attempt `start`. -/
def backoffEvents (d : ℚ) (start : Nat) : Nat → List LLMEvent
  | 0 => []
  | len + 1 => backoffPiece d start ++ backoffEvents d (start + 1) len

/-- Every `generate()` invocation of the retry controller carries temperature 0.2. -/
def llmTempOK : LLMEvent → Bool
  | LLMEvent.sleep _ => true
  | LLMEvent.attemptGenerate t => t == 1 / 5

/-- Every `generate()` invocation of the orchestrator carries temperature 0.2. -/
def fbTempOK : FBEvent → Bool
  | FBEvent.construct _ _ => true
  | FBEvent.invokeGenerate _ _ t => t == 1 / 5

/-- Recognize a provider-construction event. -/
def isConstructEv : FBEvent → Bool
  | FBEvent.construct _ _ => true
  | FBEvent.invokeGenerate _ _ _ => false

/-- Recognize a `generate()` invocation of the candidate at position `idx`. -/
def isGenerateAt (idx : Nat) : FBEvent → Bool
  | FBEvent.invokeGenerate i _ _ => i == idx
  | FBEvent.construct _ _ => false

/-! ### Concrete scenarios used by counterexamples and witnesses -/

/-- Settings yielding four candidate providers `[openai, gemini, groq, together]`. -/
def settingsABCD : UserSettings :=
  ⟨some (chars "openai"), some (chars "sk-test"), none, none, none,
   [(chars "gemini", some (chars "gk")), (chars "groq", some (chars "qk")),
    (chars "together", some (chars "tk"))]⟩

/-- Candidates 0 and 1 fail with a retriable message, candidate 2 succeeds. -/
def worldABC : Nat → GenOutcome := fun i =>
  if i = 0 then GenOutcome.err (chars "temporarily unavailable")
  else if i = 1 then GenOutcome.err (chars "temporarily unavailable")
  else GenOutcome.ok (RVal.text (chars "OK"))

/-- Settings yielding two candidate providers `[openai, groq]`. -/
def settingsPair : UserSettings :=
  ⟨some (chars "openai"), some (chars "sk-a"), none, none, none,
   [(chars "groq", some (chars "qk"))]⟩

/-- Candidate 0 fails with a timeout (retriable), candidate 1 succeeds. -/
def worldTimeoutThenOk : Nat → GenOutcome := fun i =>
  if i = 0 then GenOutcome.err (chars "Request timed out")
  else GenOutcome.ok (RVal.text (chars "hi"))

/-- Settings yielding the single candidate `[openai]`. -/
def settingsSolo : UserSettings :=
  ⟨some (chars "openai"), some (chars "sk-a"), none, none, none, []⟩

/-- Every candidate fails with an unclassified error. -/
def worldAllFail : Nat → GenOutcome := fun _ => GenOutcome.err (chars "boom")

/-! ### Definitions for the extraction round-trip statements (C5) -/

/-- Characters that can begin a JSON value for the parser's dispatch. -/
def jsonStarter (c : Char) : Bool :=
  c = '"' || c = '{' || c = '[' || c = 't' || c = 'f' || c = 'n' || c = '-' || c.isDigit

/-- The only prose constraint of the round-trip: no backquote character (a
backquote in the prose could open or close a fence and divert the fenced-block
scan); quotes, braces, brackets, whitespace and JSON-like prose are all
allowed, as is empty prose. -/
def noBtick (c : Char) : Bool := c != btick

/-- The shapes the fenced-block patterns can recover. -/
def isObjOrArr : Json → Bool
  | Json.arr _ => true
  | Json.obj _ => true
  | _ => false

/-- A serialized JSON value inside a fenced code block with surrounding prose,
the input family of the round-trip property. -/
def fencedInput (p1 : List Char) (j : Json) (p2 : List Char) : List Char :=
  p1 ++ chars "```json\n" ++ serJ j ++ chars "\n```" ++ p2

/-- A non-whitespace, non-backquote character (the class of every digit the
number serializer emits). -/
def goodChar (c : Char) : Bool := !isPySpace c && c != btick

/-- A decimal digit that is also a good character. -/
def digitOK (c : Char) : Bool := Char.isDigit c && goodChar c

/-- The head of `r` cannot extend a number token. -/
def noDigitHead : List Char → Bool
  | [] => true
  | c :: _ => !Char.isDigit c

mutual

/-- Fuel lower bound for the parser on a serialized value (each constructor
pays for the parser frames it opens). -/
def sizeJ : Json → Nat
  | Json.null => 1
  | Json.bool _ => 1
  | Json.num _ => 1
  | Json.str _ => 1
  | Json.arr xs => 2 + sizeArr xs
  | Json.obj fs => 2 + sizeObj fs

/-- Fuel lower bound for `parseElems` on serialized elements. -/
def sizeArr : List Json → Nat
  | [] => 0
  | x :: t => 1 + sizeJ x + sizeArr t

/-- Fuel lower bound for `parseFields` on serialized fields. -/
def sizeObj : List (List Char × Json) → Nat
  | [] => 0
  | (_, v) :: t => 1 + sizeJ v + sizeObj t

end

/-- The serialized tail of a nonempty array after its first element. -/
def serArrTail : List Json → List Char
  | [] => []
  | y :: t => ',' :: serArr (y :: t)

/-- The serialized tail of a nonempty object after its first field. -/
def serObjTail : List (List Char × Json) → List Char
  | [] => []
  | p :: t => ',' :: serObj (p :: t)

/-! ## Helper lemmas -/

theorem isPre_append_ext (p : List Char) : ∀ (s r : List Char), isPre p s = true → isPre p (s ++ r) = true := by
  induction p with
  | nil => intro s r _; rfl
  | cons a as ih =>
    intro s r h
    cases s with
    | nil => simp [isPre] at h
    | cons b bs =>
      simp only [isPre, Bool.and_eq_true] at h
      simp only [List.cons_append, isPre, Bool.and_eq_true]
      exact ⟨h.1, ih bs r h.2⟩

theorem isPre_refl_append (p r : List Char) : isPre p (p ++ r) = true := by
  induction p with
  | nil => rfl
  | cons a as ih => simpa [isPre] using ih

theorem hasSub_nil (s : List Char) : hasSub s [] = true := by
  induction s with
  | nil => rfl
  | cons c t ih => simp [hasSub, isPre]

theorem hasSub_append_left (a b nd : List Char) (h : hasSub a nd = true) :
    hasSub (a ++ b) nd = true := by
  induction a with
  | nil =>
    cases nd with
    | nil => simpa using hasSub_nil b
    | cons x xs => simp [hasSub, isPre] at h
  | cons c t ih =>
    simp only [hasSub, Bool.or_eq_true] at h
    rcases h with h | h
    · simp only [List.cons_append, hasSub, Bool.or_eq_true]
      exact Or.inl (by simpa [List.cons_append] using isPre_append_ext nd (c :: t) b h)
    · simp only [List.cons_append, hasSub, Bool.or_eq_true]
      exact Or.inr (ih h)

theorem hasSub_append_right (a b nd : List Char) (h : hasSub b nd = true) :
    hasSub (a ++ b) nd = true := by
  induction a with
  | nil => simpa using h
  | cons c t ih => simp only [List.cons_append, hasSub, Bool.or_eq_true]; exact Or.inr ih

theorem hasSub_here (nd r : List Char) : hasSub (nd ++ r) nd = true := by
  cases nd with
  | nil => simpa using hasSub_nil r
  | cons c t =>
    simp only [List.cons_append, hasSub, Bool.or_eq_true]
    exact Or.inl (by simpa [List.cons_append] using isPre_refl_append (c :: t) r)

theorem hasSub_mid (a nd b : List Char) : hasSub (a ++ (nd ++ b)) nd = true :=
  hasSub_append_right a (nd ++ b) nd (hasSub_here nd b)

/-- First attempt fails with a message the controller classifies as a quota
error: exactly one `generate()` invocation, no sleep, empty dict for JSON
output and a raised quota message for text output. -/
theorem call_llm_quota_abort (gen : Nat → GenOutcome) (fmt name : List Char) (maxR : Nat)
    (d : ℚ) (m : List Char) (h1 : 1 ≤ maxR) (hgen : gen 0 = GenOutcome.err m)
    (hq : isQuotaMsg m = true) :
    call_llm gen fmt name maxR d =
      ⟨if fmt = chars "json" then Except.ok (RVal.json (Json.obj []))
        else Except.error (quotaAbortMsg name), [LLMEvent.attemptGenerate (1 / 5)]⟩ := by
  obtain ⟨f, rfl⟩ : ∃ f, maxR = f + 1 := ⟨maxR - 1, by omega⟩
  unfold call_llm callLLMGo
  rw [hgen]
  by_cases hf : fmt = chars "json" <;> simp [hq, hf]

/-- First attempt fails with an auth-classified (and not quota-classified)
message: exactly one `generate()` invocation, no sleep, the error re-raised. -/
theorem call_llm_auth_abort (gen : Nat → GenOutcome) (fmt name : List Char) (maxR : Nat)
    (d : ℚ) (m : List Char) (h1 : 1 ≤ maxR) (hgen : gen 0 = GenOutcome.err m)
    (hq : isQuotaMsg m = false) (ha : isAuthMsg m = true) :
    call_llm gen fmt name maxR d = ⟨Except.error m, [LLMEvent.attemptGenerate (1 / 5)]⟩ := by
  obtain ⟨f, rfl⟩ : ∃ f, maxR = f + 1 := ⟨maxR - 1, by omega⟩
  unfold call_llm callLLMGo
  rw [hgen]
  simp [hq, ha]

/-! ## C3: fatal errors in the retry controller -/

/-- C3 counterexample: the claim says a fatal QuotaExceeded failure is
propagated to the orchestrator as a raised failure regardless of the requested
output shape.  For structured (JSON) output the code instead returns an empty
dict: with a first attempt failing on a quota message and
`response_format = "json"`, `call_llm` returns `{}` (after exactly one
attempt), raising nothing. -/
theorem c3_counterexample :
    call_llm (fun _ => GenOutcome.err (chars "quota exceeded")) (chars "json")
        (chars "OPENAI") 3 2 =
      ⟨Except.ok (RVal.json (Json.obj [])), [LLMEvent.attemptGenerate (1 / 5)]⟩ := rfl

/-- C3 (amended): when an attempt fails with a quota-classified or
auth-classified message, `call_llm` makes no further attempt and no backoff
sleep (the trace is a single `generate()` invocation); an auth failure is
re-raised unchanged, while a quota failure raises the quota message only for
text output and returns an empty dict `{}` for structured (JSON) output. -/
theorem c3_amended (gen : Nat → GenOutcome) (fmt name : List Char) (maxR : Nat) (d : ℚ)
    (m : List Char) (h1 : 1 ≤ maxR) (hgen : gen 0 = GenOutcome.err m) :
    (isQuotaMsg m = true →
      call_llm gen fmt name maxR d =
        ⟨if fmt = chars "json" then Except.ok (RVal.json (Json.obj []))
          else Except.error (quotaAbortMsg name), [LLMEvent.attemptGenerate (1 / 5)]⟩)
    ∧ (isQuotaMsg m = false → isAuthMsg m = true →
      call_llm gen fmt name maxR d = ⟨Except.error m, [LLMEvent.attemptGenerate (1 / 5)]⟩) :=
  ⟨fun hq => call_llm_quota_abort gen fmt name maxR d m h1 hgen hq,
   fun hq ha => call_llm_auth_abort gen fmt name maxR d m h1 hgen hq ha⟩

/-- C3 witness: the amended theorem applied to a quota failure under text
output: one attempt, quota message raised. -/
theorem c3_witness :
    call_llm (fun _ => GenOutcome.err (chars "quota")) (chars "text") (chars "OPENAI") 3 2 =
      ⟨Except.error (quotaAbortMsg (chars "OPENAI")), [LLMEvent.attemptGenerate (1 / 5)]⟩ := by
  have h := (c3_amended (fun _ => GenOutcome.err (chars "quota")) (chars "text") (chars "OPENAI")
      3 2 (chars "quota") (by omega) rfl).1 (by decide)
  rw [if_neg (by decide)] at h
  exact h

/-! ## C4: RateLimited classification in the retry controller -/

/-- C4 counterexample: the claim says a RateLimited error distinct from hard
quota exhaustion is retriable and retried up to the attempt budget.  With a
first attempt failing on a "rate limit" message and budget 3, the code makes
exactly one attempt (no retry, no sleep) and aborts with the quota message:
`call_llm` classifies every "rate limit" message as a fatal quota error. -/
theorem c4_counterexample :
    call_llm (fun _ => GenOutcome.err (chars "rate limit reached")) (chars "text")
        (chars "X") 3 2 =
      ⟨Except.error (quotaAbortMsg (chars "X")), [LLMEvent.attemptGenerate (1 / 5)]⟩ := rfl

/-- C4 (amended): an attempt failing with a message containing "rate limit"
is classified by `call_llm` as a quota error and treated as fatal: exactly one
`generate()` invocation, no backoff sleep, and an immediate abort (raising the
quota message for text output, returning an empty dict for JSON output). -/
theorem c4_amended (gen : Nat → GenOutcome) (fmt name : List Char) (maxR : Nat) (d : ℚ)
    (m : List Char) (h1 : 1 ≤ maxR) (hgen : gen 0 = GenOutcome.err m)
    (hrl : hasSub (lowerStr m) (chars "rate limit") = true) :
    call_llm gen fmt name maxR d =
      ⟨if fmt = chars "json" then Except.ok (RVal.json (Json.obj []))
        else Except.error (quotaAbortMsg name), [LLMEvent.attemptGenerate (1 / 5)]⟩ := by
  apply call_llm_quota_abort gen fmt name maxR d m h1 hgen
  simp [isQuotaMsg, hrl]

/-- C4 witness: the amended theorem applied to a rate-limit failure under
JSON output with budget 4: one attempt, empty dict returned. -/
theorem c4_witness :
    call_llm (fun _ => GenOutcome.err (chars "Gemini rate limit hit")) (chars "json")
        (chars "GEMINI") 4 2 =
      ⟨Except.ok (RVal.json (Json.obj [])), [LLMEvent.attemptGenerate (1 / 5)]⟩ := by
  have h := c4_amended (fun _ => GenOutcome.err (chars "Gemini rate limit hit")) (chars "json")
      (chars "GEMINI") 4 2 (chars "Gemini rate limit hit") (by omega) rfl (by decide)
  rw [if_pos rfl] at h
  exact h

/-- The trace of one loop iteration equals the attempt's backoff piece. -/
theorem backoffPiece_append (d : ℚ) (attempt : Nat) (evs : List LLMEvent) :
    (if attempt > 0 then evs ++ [LLMEvent.sleep (d * 2 ^ (attempt - 1))] else evs)
      ++ [LLMEvent.attemptGenerate (1 / 5)] = evs ++ backoffPiece d attempt := by
  cases attempt <;> simp [backoffPiece]

/-- The retry loop's whole trace is the backoff schedule of the attempts it
made, appended to the incoming trace. -/
theorem callLLMGo_events (gen : Nat → GenOutcome) (fmt name : List Char) (maxR : Nat) (d : ℚ) :
    ∀ (fuel attempt : Nat) (evs : List LLMEvent) (lastE : Option (List Char)),
      ∃ k, k ≤ fuel ∧
        (callLLMGo gen fmt name maxR d fuel attempt evs lastE).events
          = evs ++ backoffEvents d attempt k := by
  intro fuel
  induction fuel with
  | zero =>
    intro attempt evs lastE
    refine ⟨0, Nat.le_refl 0, ?_⟩
    cases lastE <;> simp [callLLMGo, backoffEvents]
  | succ f ih =>
    intro attempt evs lastE
    simp only [callLLMGo]
    cases hg : gen attempt with
    | ok v =>
      refine ⟨1, by omega, ?_⟩
      simpa [backoffEvents] using backoffPiece_append d attempt evs
    | err m =>
      by_cases hq : isQuotaMsg m = true
      · by_cases hf : fmt = chars "json" <;>
          · refine ⟨1, by omega, ?_⟩
            simp only [hq, hf, if_true, if_false]
            simpa [backoffEvents, hf] using backoffPiece_append d attempt evs
      · by_cases ha : isAuthMsg m = true
        · refine ⟨1, by omega, ?_⟩
          simp only [Bool.not_eq_true] at hq
          simp only [hq, ha]
          simpa [backoffEvents] using backoffPiece_append d attempt evs
        · by_cases hr : (isRetriableMsg m && decide (attempt < maxR - 1)) = true
          · simp only [Bool.not_eq_true] at hq ha
            simp only [hq, ha, hr, if_true, if_false, Bool.false_eq_true]
            obtain ⟨k, hk, he⟩ := ih (attempt + 1)
              ((if attempt > 0 then evs ++ [LLMEvent.sleep (d * 2 ^ (attempt - 1))] else evs)
                ++ [LLMEvent.attemptGenerate (1 / 5)]) (some m)
            refine ⟨k + 1, by omega, ?_⟩
            rw [he, backoffPiece_append d attempt evs]
            simp [backoffEvents]
          · refine ⟨1, by omega, ?_⟩
            simp only [Bool.not_eq_true] at hq ha hr
            simp only [hq, ha, hr, if_true, if_false, Bool.false_eq_true]
            simpa [backoffEvents] using backoffPiece_append d attempt evs

/-! ## C8: backoff schedule of the retry controller -/

/-- C8: the retry controller's whole event trace is exactly the backoff
schedule of the attempts it made: attempt 1 (piece index 0) is preceded by no
sleep, and attempt `n ≥ 2` (piece index `a = n - 1 ≥ 1`) is preceded by a
sleep of `d * 2 ^ (a - 1) = d * 2 ^ (n - 2)`; every sleep immediately
precedes its attempt's `generate()` invocation, so no sleep follows the final
attempt. -/
theorem c8_backoff_schedule (gen : Nat → GenOutcome) (fmt name : List Char) (maxR : Nat)
    (d : ℚ) :
    ∃ m, m ≤ maxR ∧ (call_llm gen fmt name maxR d).events = backoffEvents d 0 m := by
  obtain ⟨k, hk, he⟩ := callLLMGo_events gen fmt name maxR d maxR 0 [] none
  exact ⟨k, hk, by simpa using he⟩

/-! ## C10: fixed sampling temperature -/

/-- Every event of a backoff schedule carries temperature 0.2. -/
theorem backoffEvents_tempOK (d : ℚ) : ∀ (len start : Nat),
    (backoffEvents d start len).all llmTempOK = true := by
  intro len
  induction len with
  | zero => intro start; rfl
  | succ k ih => intro start; simp [backoffEvents, backoffPiece, llmTempOK, ih]

/-- The orchestrator loop preserves an all-0.2 trace. -/
theorem fbLoop_tempOK (w : Nat → GenOutcome) :
    ∀ (l : List (Nat × ProviderEntry)) (errors : List (List Char × List Char))
      (events : List FBEvent), events.all fbTempOK = true →
      ((fbLoop w l errors events).events).all fbTempOK = true := by
  intro l
  induction l with
  | nil => intro errors events h; simpa [fbLoop] using h
  | cons pe rest ih =>
    obtain ⟨idx, entry⟩ := pe
    intro errors events h
    simp only [fbLoop]
    cases hc : create_llm_provider entry.1 entry.2.1 entry.2.2.1 entry.2.2.2 with
    | error e => exact ih _ _ (by simp [h, fbTempOK])
    | ok cfg =>
      cases hw : w idx with
      | ok v => simp [h, fbTempOK]
      | err m => exact ih _ _ (by simp [h, fbTempOK])

/-- C10: every `generate()` invocation issued by the retry controller and by
the orchestrator carries sampling temperature exactly 0.2 (= 1/5), for every
caller input; neither `call_llm` nor `call_llm_with_fallback` takes a
temperature parameter (see their signatures above), mirroring the Python
entry points which hard-code `temperature=0.2`. -/
theorem c10_temperature :
    (∀ (gen : Nat → GenOutcome) (fmt name : List Char) (maxR : Nat) (d : ℚ),
      ((call_llm gen fmt name maxR d).events).all llmTempOK = true)
    ∧ (∀ (s : UserSettings) (w : Nat → GenOutcome) (maxR : Nat),
      ((call_llm_with_fallback s w maxR).events).all fbTempOK = true) := by
  constructor
  · intro gen fmt name maxR d
    obtain ⟨k, _, he⟩ := callLLMGo_events gen fmt name maxR d maxR 0 [] none
    have he2 : (call_llm gen fmt name maxR d).events = backoffEvents d 0 k := by simpa using he
    rw [he2]
    exact backoffEvents_tempOK d k 0
  · intro s w maxR
    unfold call_llm_with_fallback
    by_cases h : get_available_providers s none = []
    · simp [h]
    · simp only [h, if_false]
      exact fbLoop_tempOK w _ [] [] rfl

/-! ## C6: fallback ordering, short-circuit, and the provider cap -/

/-- The orchestrator loop attempts (constructs) at most one provider per
remaining candidate. -/
theorem fbLoop_constructCount (w : Nat → GenOutcome) :
    ∀ (l : List (Nat × ProviderEntry)) (errors : List (List Char × List Char))
      (events : List FBEvent),
      ((fbLoop w l errors events).events).countP isConstructEv
        ≤ events.countP isConstructEv + l.length := by
  intro l
  induction l with
  | nil => intro errors events; simp [fbLoop]
  | cons pe rest ih =>
    obtain ⟨idx, entry⟩ := pe
    intro errors events
    simp only [fbLoop]
    cases hc : create_llm_provider entry.1 entry.2.1 entry.2.2.1 entry.2.2.2 with
    | error e =>
      have h := ih (errors ++ [(entry.1, e)]) (events ++ [FBEvent.construct idx entry.1])
      simp [List.countP_append, List.countP_cons, isConstructEv, List.length_cons] at h ⊢
      try omega
    | ok cfg =>
      cases hw : w idx with
      | ok v =>
        simp [List.countP_append, List.countP_cons, isConstructEv, List.length_cons]
        try omega
      | err m =>
        have h := ih (errors ++ [(entry.1, m)])
          (events ++ [FBEvent.construct idx entry.1, FBEvent.invokeGenerate idx entry.1 (1 / 5)])
        simp [List.countP_append, List.countP_cons, isConstructEv, List.length_cons] at h ⊢
        try omega

/-- C6: with candidates `[openai(A), gemini(B), groq(C), together(D)]` where A
and B fail (`temporarily unavailable`) and C succeeds, the orchestrated call
returns C's result paired with C's provider identifier `"groq"`; the error log
holds exactly A's and B's errors in that order; the trace shows D
(`"together"`) is never constructed nor invoked; and, in general, at most
`max_retries` providers (default 3) are ever constructed. -/
theorem c6_fallback_ordering :
    call_llm_with_fallback settingsABCD worldABC 3 =
      ⟨Except.ok (RVal.text (chars "OK"), chars "groq"),
       [(chars "openai", chars "temporarily unavailable"),
        (chars "gemini", chars "temporarily unavailable")],
       [FBEvent.construct 0 (chars "openai"), FBEvent.invokeGenerate 0 (chars "openai") (1 / 5),
        FBEvent.construct 1 (chars "gemini"), FBEvent.invokeGenerate 1 (chars "gemini") (1 / 5),
        FBEvent.construct 2 (chars "groq"), FBEvent.invokeGenerate 2 (chars "groq") (1 / 5)]⟩
    ∧ ∀ (s : UserSettings) (w : Nat → GenOutcome) (maxR : Nat),
        ((call_llm_with_fallback s w maxR).events).countP isConstructEv ≤ maxR := by
  constructor
  · rfl
  · intro s w maxR
    unfold call_llm_with_fallback
    by_cases h : get_available_providers s none = []
    · simp [h]
    · simp only [h, if_false]
      have hcount := fbLoop_constructCount w
        ((List.take maxR (get_available_providers s none)).enum) [] []
      have hlen : ((List.take maxR (get_available_providers s none)).enum).length ≤ maxR := by
        rw [List.enum_length, List.length_take]
        exact Nat.min_le_left _ _
      simp only [List.countP_nil, Nat.zero_add] at hcount
      omega

/-! ## C1: the orchestrator does not route `generate()` through the retry controller -/

/-- The orchestrator loop invokes the candidate at position `idx` at most as
often as `idx` occurs among the remaining candidate positions. -/
theorem fbLoop_generateCount (w : Nat → GenOutcome) (idx : Nat) :
    ∀ (l : List (Nat × ProviderEntry)) (errors : List (List Char × List Char))
      (events : List FBEvent),
      ((fbLoop w l errors events).events).countP (isGenerateAt idx)
        ≤ events.countP (isGenerateAt idx) + (l.map Prod.fst).count idx := by
  intro l
  induction l with
  | nil => intro errors events; simp [fbLoop]
  | cons pe rest ih =>
    obtain ⟨i, entry⟩ := pe
    intro errors events
    simp only [fbLoop]
    cases hc : create_llm_provider entry.1 entry.2.1 entry.2.2.1 entry.2.2.2 with
    | error e =>
      have h := ih (errors ++ [(entry.1, e)]) (events ++ [FBEvent.construct i entry.1])
      simp [List.countP_append, List.countP_cons, isGenerateAt, List.count_cons] at h ⊢
      by_cases hi : i = idx <;> (try simp [hi] at h ⊢) <;> try omega
    | ok cfg =>
      cases hw : w i with
      | ok v =>
        simp [List.countP_append, List.countP_cons, isGenerateAt, List.count_cons]
      | err m =>
        have h := ih (errors ++ [(entry.1, m)])
          (events ++ [FBEvent.construct i entry.1, FBEvent.invokeGenerate i entry.1 (1 / 5)])
        simp [List.countP_append, List.countP_cons, isGenerateAt, List.count_cons] at h ⊢
        by_cases hi : i = idx <;> (try simp [hi] at h ⊢) <;> try omega

/-- C1 counterexample: the claim says each candidate's `generate()` is invoked
through the Retry Controller, so a retriable failure is retried up to the
per-provider budget before advancing.  With candidates `[openai, groq]`,
`openai` failing on `"Request timed out"` - a message `call_llm` classifies as
retriable - the orchestrator's trace shows exactly one `generate()` invocation
for `openai` (no retry, no sleep event of any kind) before it constructs and
invokes `groq`: `provider.generate()` is called directly, not through
`call_llm`. -/
theorem c1_counterexample :
    call_llm_with_fallback settingsPair worldTimeoutThenOk 3 =
      ⟨Except.ok (RVal.text (chars "hi"), chars "groq"),
       [(chars "openai", chars "Request timed out")],
       [FBEvent.construct 0 (chars "openai"), FBEvent.invokeGenerate 0 (chars "openai") (1 / 5),
        FBEvent.construct 1 (chars "groq"), FBEvent.invokeGenerate 1 (chars "groq") (1 / 5)]⟩ := by
  have hr : isRetriableMsg (chars "Request timed out") = true := by decide
  exact rfl

/-- C1 (amended): `call_llm_with_fallback` invokes each candidate provider's
`generate()` directly - not through the Retry Controller `call_llm` - so every
candidate position is invoked at most once per orchestrated call, and a
provider failing with a retriable error is not retried before the orchestrator
advances to the next provider. -/
theorem c1_amended (s : UserSettings) (w : Nat → GenOutcome) (maxR idx : Nat) :
    ((call_llm_with_fallback s w maxR).events).countP (isGenerateAt idx) ≤ 1 := by
  unfold call_llm_with_fallback
  by_cases h : get_available_providers s none = []
  · simp [h]
  · simp only [h, if_false]
    have hcount := fbLoop_generateCount w idx
      ((List.take maxR (get_available_providers s none)).enum) [] []
    have hfst : ((List.take maxR (get_available_providers s none)).enum).map Prod.fst
        = List.range ((List.take maxR (get_available_providers s none)).length) :=
      List.enum_map_fst _
    have hnodup : (((List.take maxR (get_available_providers s none)).enum).map Prod.fst).count idx ≤ 1 := by
      rw [hfst]
      exact List.nodup_iff_count_le_one.mp (List.nodup_range _) idx
    simp only [List.countP_nil, Nat.zero_add] at hcount
    omega

/-! ## C9: extraction failure carries a bounded preview -/

/-- C9: on the spec's no-JSON input the extraction engine raises the
preview-bearing failure (the preview being the whole 34-character input,
within the 200-character bound); and in general every extraction outcome is
either a parsed value or exactly that failure message carrying the first 200
characters of the original content - never a false-positive parse in place of
the failure. -/
theorem c9_no_valid_json :
    extract_json_from_response (chars "I cannot comply with that request.")
      = Except.error
          (chars "No valid JSON found in response. Response starts with: I cannot comply with that request.")
    ∧ ∀ s : List Char, (∃ j, extract_json_from_response s = Except.ok j)
        ∨ extract_json_from_response s
            = Except.error
                (chars "No valid JSON found in response. Response starts with: " ++ s.take 200) := by
  constructor
  · rfl
  · intro s
    unfold extract_json_from_response
    cases h : extractCore s with
    | some j => exact Or.inl ⟨j, rfl⟩
    | none => exact Or.inr rfl

/-! ## C2: structured-output failure behaviour of the providers -/

/-- `lowerStr` distributes over append. -/
theorem lowerStr_append (a b : List Char) : lowerStr (a ++ b) = lowerStr a ++ lowerStr b :=
  List.map_append Char.toLower a b

/-- C2 counterexample: the claim says that when no extraction strategy
succeeds on a structured-output request, the provider raises rather than
returning a value - in particular never an empty structured value.  The
OpenAI provider's `generate()` instead returns the empty dict `{}` when its
`json.loads` fails on the response content. -/
theorem c2_counterexample :
    openaiPostprocess (chars "json") (chars "I cannot produce JSON.")
      = Except.ok (RVal.json (Json.obj [])) := rfl

/-- C2 (amended): only the Ollama provider routes structured output through
the extraction engine and raises on failure - as the retriable
format-violation message when the content looks like markdown/tutorial (that
message is classified retriable by the retry controller), and as the
invalid-JSON message otherwise.  The OpenAI and HuggingFace providers (and
the other direct-parse providers sharing their shape) return the empty dict
`{}` when the direct parse of the content fails. -/
theorem c2_amended :
    (∀ content : List Char, extractCore content = none → isMarkdownTutorial content = true →
        ollamaPostprocess (chars "json") content = Except.error (ollamaFormatViolationMsg content)
        ∧ isRetriableMsg (ollamaFormatViolationMsg content) = true)
    ∧ (∀ content : List Char, extractCore content = none → isMarkdownTutorial content = false →
        ollamaPostprocess (chars "json") content = Except.error (ollamaInvalidJsonMsg content))
    ∧ (∀ content : List Char, parseJson content = none →
        openaiPostprocess (chars "json") content = Except.ok (RVal.json (Json.obj []))
        ∧ huggingfacePostprocess (chars "json") content = Except.ok (RVal.json (Json.obj []))) := by
  refine ⟨?_, ?_, ?_⟩
  · intro content hex hmd
    constructor
    · simp only [ollamaPostprocess, hex]
      simp [hmd]
    · have h0 : hasSub (lowerStr (chars "Ollama model ignored JSON format instruction and returned markdown/tutorial instead. This is a retriable error. Response starts with: ")) (chars "retriable error") = true := by
        decide
      have h1 : hasSub (lowerStr (ollamaFormatViolationMsg content)) (chars "retriable error") = true := by
        simp only [ollamaFormatViolationMsg, lowerStr_append, List.append_assoc]
        exact hasSub_append_left _ _ _ h0
      simp [isRetriableMsg, h1]
  · intro content hex hmd
    simp only [ollamaPostprocess, hex]
    simp [hmd]
  · intro content hp
    constructor
    · simp [openaiPostprocess, hp]
    · simp [huggingfacePostprocess, hp]

/-- C2 witness: the amended theorem applied to a markdown response (Ollama
raises the retriable format violation) and to a plain-prose response (OpenAI
returns the empty dict). -/
theorem c2_witness :
    ollamaPostprocess (chars "json") (chars "# Tutorial")
      = Except.error (ollamaFormatViolationMsg (chars "# Tutorial"))
    ∧ isRetriableMsg (ollamaFormatViolationMsg (chars "# Tutorial")) = true
    ∧ openaiPostprocess (chars "json") (chars "no json here")
      = Except.ok (RVal.json (Json.obj [])) :=
  ⟨(c2_amended.1 (chars "# Tutorial") (by rfl) (by decide)).1,
   (c2_amended.1 (chars "# Tutorial") (by rfl) (by decide)).2,
   (c2_amended.2.2 (chars "no json here") (by rfl)).1⟩

/-! ## C7: the exhaustion aggregate -/

/-- Each mapped element appears verbatim inside the joined string. -/
theorem joinWith_mem (sep : List Char) (f : (List Char × List Char) → List Char) :
    ∀ (l : List (List Char × List Char)) (pe : List Char × List Char), pe ∈ l →
      ∃ a b, joinWith sep (l.map f) = a ++ (f pe ++ b) := by
  intro l
  induction l with
  | nil => intro pe h; cases h
  | cons x t ih =>
    intro pe h
    rcases List.mem_cons.mp h with rfl | hm
    · cases t with
      | nil => exact ⟨[], [], by simp [joinWith]⟩
      | cons y t' =>
        exact ⟨[], sep ++ joinWith sep ((y :: t').map f), by simp [joinWith, List.append_assoc]⟩
    · obtain ⟨a, b, hab⟩ := ih pe hm
      cases t with
      | nil => cases hm
      | cons y t' =>
        refine ⟨f x ++ sep ++ a, b, ?_⟩
        have hstep : joinWith sep (List.map f (x :: y :: t'))
            = f x ++ sep ++ joinWith sep (List.map f (y :: t')) := by
          simp [joinWith]
        rw [hstep, hab]
        simp [List.append_assoc]

/-- An aggregate failure message contains each logged provider kind and its
truncated message. -/
theorem aggregateFailMsg_contains (errors : List (List Char × List Char))
    (pe : List Char × List Char) (h : pe ∈ errors) :
    hasSub (aggregateFailMsg errors) pe.1 = true
    ∧ hasSub (aggregateFailMsg errors) (pe.2.take 50) = true := by
  obtain ⟨a, b, hab⟩ :=
    joinWith_mem (chars "; ") (fun q => q.1 ++ chars ": " ++ q.2.take 50) errors pe h
  unfold aggregateFailMsg
  rw [hab]
  constructor
  · simp only [List.append_assoc]
    exact hasSub_append_right _ _ _ (hasSub_mid a pe.1 _)
  · simp only [List.append_assoc]
    apply hasSub_append_right
    apply hasSub_append_right
    apply hasSub_append_right
    apply hasSub_append_right
    exact hasSub_here _ _

/-- When the orchestrator loop raises, the raised message is the aggregate of
its final error log. -/
theorem fbLoop_error_msg (w : Nat → GenOutcome) :
    ∀ (l : List (Nat × ProviderEntry)) (errors : List (List Char × List Char))
      (events : List FBEvent) (m : List Char),
      (fbLoop w l errors events).outcome = Except.error m →
      m = aggregateFailMsg ((fbLoop w l errors events).errors) := by
  intro l
  induction l with
  | nil =>
    intro errors events m h
    simp only [fbLoop] at h ⊢
    injection h with h2
    exact h2.symm
  | cons pe rest ih =>
    obtain ⟨idx, entry⟩ := pe
    intro errors events m h
    simp only [fbLoop] at h ⊢
    cases hc : create_llm_provider entry.1 entry.2.1 entry.2.2.1 entry.2.2.2 with
    | error e =>
      rw [hc] at h
      exact ih _ _ m h
    | ok cfg =>
      rw [hc] at h
      cases hw : w idx with
      | ok v =>
        rw [hw] at h
        simp at h
      | err msg =>
        rw [hw] at h
        exact ih _ _ m h

/-- C7: if the orchestrated call raises (and the candidate list was nonempty,
so the failure is not the fail-fast configuration error), the raised message
is exactly the aggregate of the error log: it names every attempted
provider's kind and its 50-character-truncated failure message, and carries
the instruction to check keys and quotas. -/
theorem c7_exhaustion_aggregate (s : UserSettings) (w : Nat → GenOutcome) (maxR : Nat)
    (m : List Char) (hne : get_available_providers s none ≠ [])
    (hfail : (call_llm_with_fallback s w maxR).outcome = Except.error m) :
    m = aggregateFailMsg ((call_llm_with_fallback s w maxR).errors)
    ∧ hasSub m (chars "Please check your API keys and quotas.") = true
    ∧ ∀ pe ∈ (call_llm_with_fallback s w maxR).errors,
        hasSub m pe.1 = true ∧ hasSub m (pe.2.take 50) = true := by
  have hred : call_llm_with_fallback s w maxR
      = fbLoop w ((List.take maxR (get_available_providers s none)).enum) [] [] := by
    unfold call_llm_with_fallback
    simp [hne]
  rw [hred] at hfail ⊢
  have hm := fbLoop_error_msg w _ [] [] m hfail
  refine ⟨hm, ?_, ?_⟩
  · rw [hm]
    unfold aggregateFailMsg
    have h1 : hasSub (chars ". Please check your API keys and quotas.")
        (chars "Please check your API keys and quotas.") = true := by decide
    exact hasSub_append_right _ _ _ h1
  · intro pe hpe
    rw [hm]
    exact aggregateFailMsg_contains _ pe hpe

/-- C7 witness: the theorem applied to a single failing provider; the concrete
aggregate message contains the provider kind and its message. -/
theorem c7_witness :
    hasSub (chars "All LLM providers failed. Errors: openai: boom. Please check your API keys and quotas.")
        (chars "openai") = true
    ∧ hasSub (chars "All LLM providers failed. Errors: openai: boom. Please check your API keys and quotas.")
        ((chars "boom").take 50) = true := by
  have h := c7_exhaustion_aggregate settingsSolo worldAllFail 3
    (chars "All LLM providers failed. Errors: openai: boom. Please check your API keys and quotas.")
    (by decide) rfl
  have herr : (call_llm_with_fallback settingsSolo worldAllFail 3).errors
      = [(chars "openai", chars "boom")] := rfl
  have hmem : ((chars "openai", chars "boom") : List Char × List Char)
      ∈ (call_llm_with_fallback settingsSolo worldAllFail 3).errors := by
    rw [herr]
    exact List.mem_singleton.mpr rfl
  exact h.2.2 (chars "openai", chars "boom") hmem

/-! ## C5: lemmas toward the extraction round-trip -/

theorem all_imp {p q : Char → Bool} (h : ∀ c, p c = true → q c = true) :
    ∀ l : List Char, l.all p = true → l.all q = true := by
  intro l hl
  induction l with
  | nil => rfl
  | cons c t ih =>
    simp only [List.all_cons, Bool.and_eq_true] at hl ⊢
    exact ⟨h c hl.1, ih hl.2⟩

theorem digitOK_isDigit {c : Char} (h : digitOK c = true) : Char.isDigit c = true := by
  simp only [digitOK, Bool.and_eq_true] at h
  exact h.1

theorem digit_nobt {c : Char} (h : Char.isDigit c = true) : (c != btick) = true := by
  simp only [bne_iff_ne, ne_eq]
  intro he
  subst he
  exact absurd h (by decide)

theorem digitOK_good {c : Char} (h : digitOK c = true) : goodChar c = true := by
  simp only [digitOK, Bool.and_eq_true] at h
  exact h.2

theorem digitChar_ok : ∀ k, k < 10 → digitOK (digitChar k) = true := by decide

theorem digitChar_toNat : ∀ k, k < 10 → (digitChar k).toNat - 48 = k := by decide

theorem digitChar_ne_zero : ∀ k, k < 10 → 0 < k → ¬(digitChar k = '0') := by decide

theorem digitsToNat_append (a : List Char) (d : Char) :
    digitsToNat (a ++ [d]) = 10 * digitsToNat a + (d.toNat - 48) := by
  simp [digitsToNat, List.foldl_append]

theorem natCharsAux_spec : ∀ n f, n < f →
    (natCharsAux f n).all digitOK = true
    ∧ natCharsAux f n ≠ []
    ∧ digitsToNat (natCharsAux f n) = n
    ∧ (0 < n → (natCharsAux f n).head? ≠ some '0') := by
  intro n
  induction n using Nat.strong_induction_on with
  | _ n ih =>
    intro f hf
    obtain ⟨f', rfl⟩ : ∃ f', f = f' + 1 := ⟨f - 1, by omega⟩
    by_cases h10 : n < 10
    · simp only [natCharsAux, if_pos h10]
      refine ⟨by simp [digitChar_ok n h10], by simp, ?_, ?_⟩
      · have := digitChar_toNat n h10
        simp [digitsToNat]
        omega
      · intro hn
        have hne := digitChar_ne_zero n h10 hn
        simp [hne]
    · simp only [natCharsAux, if_neg h10]
      have hdiv : n / 10 < n := Nat.div_lt_self (by omega) (by omega)
      obtain ⟨ha, hne, hval, hhd⟩ := ih (n / 10) hdiv f' (by omega)
      have hm10 : n % 10 < 10 := Nat.mod_lt n (by omega)
      refine ⟨?_, by simp, ?_, ?_⟩
      · simp [List.all_append, ha, digitChar_ok (n % 10) hm10]
      · rw [digitsToNat_append, hval]
        have := digitChar_toNat (n % 10) hm10
        omega
      · intro _
        have hpos : 0 < n / 10 := Nat.div_pos (by omega) (by omega)
        have := hhd hpos
        cases hcons : natCharsAux f' (n / 10) with
        | nil => exact absurd hcons hne
        | cons c0 t0 =>
          rw [hcons] at this
          simpa using this

theorem natChars_spec (n : Nat) :
    (natChars n).all digitOK = true ∧ natChars n ≠ []
    ∧ digitsToNat (natChars n) = n ∧ (0 < n → (natChars n).head? ≠ some '0') :=
  natCharsAux_spec n (n + 1) (Nat.lt_succ_self n)

theorem digits_take_drop : ∀ (l r : List Char), l.all Char.isDigit = true →
    noDigitHead r = true →
    (l ++ r).takeWhile Char.isDigit = l ∧ (l ++ r).dropWhile Char.isDigit = r := by
  intro l
  induction l with
  | nil =>
    intro r _ hr
    cases r with
    | nil => simp
    | cons c t =>
      simp only [noDigitHead, Bool.not_eq_true'] at hr
      simp [List.takeWhile_cons, List.dropWhile_cons, hr]
  | cons c t ih =>
    intro r hall hr
    simp only [List.all_cons, Bool.and_eq_true] at hall
    obtain ⟨ht, hd⟩ := ih r hall.2 hr
    simp [List.takeWhile_cons, List.dropWhile_cons, hall.1, ht, hd]

theorem parseNumCore_natChars (n : Nat) (r : List Char) (hr : noDigitHead r = true) :
    parseNumCore (natChars n ++ r) = some (n, r) := by
  obtain ⟨hall, hne, hval, hhd⟩ := natChars_spec n
  by_cases hn0 : n = 0
  · subst hn0
    have h0 : natChars 0 = ['0'] := by decide
    simp [h0, parseNumCore]
  · have halld : (natChars n).all Char.isDigit = true :=
      all_imp (fun c hc => digitOK_isDigit hc) _ hall
    obtain ⟨htw, hdw⟩ := digits_take_drop (natChars n) r halld hr
    cases hcons : natChars n with
    | nil => exact absurd hcons hne
    | cons c0 t0 =>
      have hd0 : digitOK c0 = true := by
        rw [hcons] at hall
        simp only [List.all_cons, Bool.and_eq_true] at hall
        exact hall.1
      have hdig : Char.isDigit c0 = true := digitOK_isDigit hd0
      have hz : ¬(c0 = '0') := by
        have := hhd (by omega)
        rw [hcons] at this
        simpa using this
      rw [List.cons_append]
      simp only [parseNumCore, if_neg hz, hdig, if_true]
      rw [hcons] at htw hdw
      rw [← List.cons_append, htw, hdw, ← hcons, hval]

theorem parseNum_intChars (n : Int) (r : List Char) (hr : noDigitHead r = true) :
    parseNum (intChars n ++ r) = some (Json.num n, r) := by
  by_cases hneg : n < 0
  · simp only [intChars, if_pos hneg, List.cons_append, parseNum, if_pos rfl]
    rw [parseNumCore_natChars _ _ hr]
    have heq : -((n.natAbs : Nat) : Int) = n := by omega
    show some (Json.num (-((n.natAbs : Nat) : Int)), r) = some (Json.num n, r)
    rw [heq]
  · simp only [intChars, if_neg hneg]
    obtain ⟨hall, hne, _, _⟩ := natChars_spec n.toNat
    cases hcons : natChars n.toNat with
    | nil => exact absurd hcons hne
    | cons c0 t0 =>
      have hd0 : digitOK c0 = true := by
        rw [hcons] at hall
        simp only [List.all_cons, Bool.and_eq_true] at hall
        exact hall.1
      have hdig : Char.isDigit c0 = true := digitOK_isDigit hd0
      have hnd : ¬(c0 = '-') := fun he => by
        rw [he] at hdig
        exact absurd hdig (by decide)
      rw [List.cons_append]
      simp only [parseNum, if_neg hnd]
      rw [← List.cons_append, ← hcons, parseNumCore_natChars _ _ hr]
      have heq : ((n.toNat : Nat) : Int) = n := by omega
      show some (Json.num ((n.toNat : Nat) : Int), r) = some (Json.num n, r)
      rw [heq]

theorem tameChar_props {c : Char} (h : tameChar c = true) :
    ¬(c = btick) ∧ (¬(c = '\x08') → ¬(c = '\t') → ¬(c = '\n') → ¬(c = '\x0c') →
      ¬(c = '\r') → 32 ≤ c.toNat) := by
  simp only [tameChar, Bool.and_eq_true, Bool.or_eq_true, decide_eq_true_eq,
    bne_iff_ne, ne_eq] at h
  obtain ⟨hb, hrest⟩ := h
  refine ⟨hb, ?_⟩
  intro h1 h2 h3 h4 h5
  rcases hrest with ((((h32 | hc) | hc) | hc) | hc) | hc
  · exact h32
  · exact absurd hc h1
  · exact absurd hc h2
  · exact absurd hc h3
  · exact absurd hc h4
  · exact absurd hc h5

theorem good_not_ws {c : Char} (h : goodChar c = true) : isPySpace c = false ∧ ¬(c = btick) := by
  simp only [goodChar, Bool.and_eq_true, Bool.not_eq_true', bne_iff_ne, ne_eq] at h
  exact h

theorem jsonWs_le_pyWs {c : Char} (h : isJsonWs c = true) : isPySpace c = true := by
  simp only [isJsonWs, Bool.or_eq_true, decide_eq_true_eq] at h
  rcases h with ((h | h) | h) | h <;> simp [isPySpace, h]

theorem good_not_jsonWs {c : Char} (h : goodChar c = true) : isJsonWs c = false := by
  cases hj : isJsonWs c with
  | false => rfl
  | true => exact absurd (good_not_ws h).1 (by simp [jsonWs_le_pyWs hj])

theorem skipWs_good (l r : List Char) (hne : l ≠ []) (hall : l.all goodChar = true) :
    skipWs (l ++ r) = l ++ r := by
  cases l with
  | nil => exact absurd rfl hne
  | cons c t =>
    simp only [List.all_cons, Bool.and_eq_true] at hall
    simp [skipWs, List.dropWhile_cons, good_not_jsonWs hall.1]

theorem dropPyWs_good (l r : List Char) (hne : l ≠ []) (hall : l.all goodChar = true) :
    (l ++ r).dropWhile isPySpace = l ++ r := by
  cases l with
  | nil => exact absurd rfl hne
  | cons c t =>
    simp only [List.all_cons, Bool.and_eq_true] at hall
    simp [List.dropWhile_cons, (good_not_ws hall.1).1]

theorem escapeStr_cons (c : Char) (t : List Char) :
    escapeStr (c :: t) = escChar c ++ escapeStr t := by
  simp [escapeStr]

theorem escape_nobt : ∀ s : List Char, s.all tameChar = true →
    (escapeStr s).all (fun c => c != btick) = true := by
  intro s
  induction s with
  | nil => intro _; rfl
  | cons c t ih =>
    intro hall
    simp only [List.all_cons, Bool.and_eq_true] at hall
    rw [escapeStr_cons, List.all_append, Bool.and_eq_true]
    refine ⟨?_, ih hall.2⟩
    unfold escChar
    by_cases h1 : c = '"'
    · rw [if_pos h1]; decide
    · rw [if_neg h1]
      by_cases h2 : c = '\\'
      · rw [if_pos h2]; decide
      · rw [if_neg h2]
        by_cases h3 : c = '\x08'
        · rw [if_pos h3]; decide
        · rw [if_neg h3]
          by_cases h4 : c = '\t'
          · rw [if_pos h4]; decide
          · rw [if_neg h4]
            by_cases h5 : c = '\n'
            · rw [if_pos h5]; decide
            · rw [if_neg h5]
              by_cases h6 : c = '\x0c'
              · rw [if_pos h6]; decide
              · rw [if_neg h6]
                by_cases h7 : c = '\r'
                · rw [if_pos h7]; decide
                · rw [if_neg h7]
                  simp [(tameChar_props hall.1).1]

theorem parseStrBody_escape : ∀ (s : List Char), s.all tameChar = true → ∀ r,
    parseStrBody (escapeStr s ++ ('"' :: r)) = some (s, r) := by
  intro s
  induction s with
  | nil =>
    intro _ r
    simp only [escapeStr, List.flatMap_nil, List.nil_append]
    rfl
  | cons c t ih =>
    intro hall r
    simp only [List.all_cons, Bool.and_eq_true] at hall
    obtain ⟨hc, ht⟩ := hall
    rw [escapeStr_cons]
    unfold escChar
    have e1 : ¬(('\\' : Char) = '"') := by decide
    by_cases h1 : c = '"'
    · subst h1
      simp only [if_pos rfl, List.cons_append, List.nil_append, List.append_assoc]
      simp [parseStrBody, e1, parseStrEsc, unescapeChar, ih ht r]
    · rw [if_neg h1]
      by_cases h2 : c = '\\'
      · subst h2
        simp only [if_pos rfl, List.cons_append, List.nil_append, List.append_assoc]
        simp [parseStrBody, e1, parseStrEsc, unescapeChar, ih ht r]
      · rw [if_neg h2]
        by_cases h3 : c = '\x08'
        · subst h3
          simp only [if_pos rfl, List.cons_append, List.nil_append, List.append_assoc]
          simp [parseStrBody, e1, parseStrEsc, unescapeChar, ih ht r]
        · rw [if_neg h3]
          by_cases h4 : c = '\t'
          · subst h4
            simp only [if_pos rfl, List.cons_append, List.nil_append, List.append_assoc]
            simp [parseStrBody, e1, parseStrEsc, unescapeChar, ih ht r]
          · rw [if_neg h4]
            by_cases h5 : c = '\n'
            · subst h5
              simp only [if_pos rfl, List.cons_append, List.nil_append, List.append_assoc]
              simp [parseStrBody, e1, parseStrEsc, unescapeChar, ih ht r]
            · rw [if_neg h5]
              by_cases h6 : c = '\x0c'
              · subst h6
                simp only [if_pos rfl, List.cons_append, List.nil_append, List.append_assoc]
                simp [parseStrBody, e1, parseStrEsc, unescapeChar, ih ht r]
              · rw [if_neg h6]
                by_cases h7 : c = '\r'
                · subst h7
                  simp only [if_pos rfl, List.cons_append, List.nil_append, List.append_assoc]
                  simp [parseStrBody, e1, parseStrEsc, unescapeChar, ih ht r]
                · rw [if_neg h7]
                  have h32 : ¬(c.toNat < 32) := by
                    have := (tameChar_props hc).2 h3 h4 h5 h6 h7
                    omega
                  simp only [List.cons_append, List.nil_append]
                  simp [parseStrBody, h1, h2, h32, ih ht r]

theorem sizeJ_pos : ∀ j, 1 ≤ sizeJ j := by
  intro j
  cases j <;> simp [sizeJ] <;> omega

theorem serJ_ne_nil : ∀ j, serJ j ≠ [] := by
  intro j
  cases j with
  | null => simp [serJ, chars]
  | bool b => cases b <;> simp [serJ, chars]
  | num n =>
    simp only [serJ, intChars]
    by_cases h : n < 0
    · rw [if_pos h]
      simp
    · rw [if_neg h]
      exact (natChars_spec n.toNat).2.1
  | str s => simp [serJ, serStr]
  | arr xs => simp [serJ]
  | obj fs => simp [serJ]

theorem serJ_head (j : Json) : ∃ c t, serJ j = c :: t ∧ jsonStarter c = true := by
  cases j with
  | null => exact ⟨'n', chars "ull", by constructor <;> decide⟩
  | bool b =>
    cases b with
    | true => exact ⟨'t', chars "rue", by constructor <;> decide⟩
    | false => exact ⟨'f', chars "alse", by constructor <;> decide⟩
  | num n =>
    simp only [serJ, intChars]
    by_cases h : n < 0
    · exact ⟨'-', natChars n.natAbs, by rw [if_pos h], by decide⟩
    · obtain ⟨hall, hne, _, _⟩ := natChars_spec n.toNat
      cases hcons : natChars n.toNat with
      | nil => exact absurd hcons hne
      | cons c0 t0 =>
        refine ⟨c0, t0, by rw [if_neg h], ?_⟩
        rw [hcons] at hall
        simp only [List.all_cons, Bool.and_eq_true] at hall
        have := digitOK_isDigit hall.1
        simp [jsonStarter, this]
  | str s => exact ⟨'"', escapeStr s ++ ['"'], rfl, by decide⟩
  | arr xs => exact ⟨'[', serArr xs ++ [']'], rfl, by decide⟩
  | obj fs => exact ⟨'{', serObj fs ++ ['}'], rfl, by decide⟩

theorem serArr_cons (x : Json) (t : List Json) :
    serArr (x :: t)
      = serJ x ++ (match t with | [] => [] | y :: t' => ',' :: serArr (y :: t')) := by
  cases t with
  | nil => simp [serArr]
  | cons y t' => simp [serArr]

theorem serObj_cons (k : List Char) (v : Json) (t : List (List Char × Json)) :
    serObj ((k, v) :: t)
      = (serStr k ++ (':' :: serJ v))
        ++ (match t with | [] => [] | p :: t' => ',' :: serObj (p :: t')) := by
  cases t with
  | nil => simp [serObj]
  | cons p t' => simp [serObj]

theorem ser_nobt_main : ∀ N,
    (∀ j, sizeJ j ≤ N → tameJson j = true → (serJ j).all (fun c => c != btick) = true)
    ∧ (∀ xs, sizeArr xs ≤ N → tameArr xs = true →
        (serArr xs).all (fun c => c != btick) = true)
    ∧ (∀ fs, sizeObj fs ≤ N → tameObj fs = true →
        (serObj fs).all (fun c => c != btick) = true) := by
  intro N
  induction N with
  | zero =>
    refine ⟨?_, ?_, ?_⟩
    · intro j hsz _
      have := sizeJ_pos j
      omega
    · intro xs hsz _
      cases xs with
      | nil => rfl
      | cons x t => simp only [sizeArr] at hsz; omega
    · intro fs hsz _
      cases fs with
      | nil => rfl
      | cons p t =>
        obtain ⟨k, v⟩ := p
        simp only [sizeObj] at hsz
        omega
  | succ N ih =>
    refine ⟨?_, ?_, ?_⟩
    · intro j hsz htame
      cases j with
      | null => decide
      | bool b => cases b <;> decide
      | num n =>
        simp only [serJ, intChars]
        by_cases h : n < 0
        · rw [if_pos h]
          have hall := all_imp (fun c hc => digit_nobt (digitOK_isDigit hc)) _
            (natChars_spec n.natAbs).1
          simp [List.all_cons, hall]
          decide
        · rw [if_neg h]
          exact all_imp (fun c hc => digit_nobt (digitOK_isDigit hc)) _
            (natChars_spec n.toNat).1
      | str s =>
        simp only [tameJson] at htame
        simp only [serJ, serStr]
        rw [List.all_cons, List.all_append, Bool.and_eq_true, Bool.and_eq_true]
        exact ⟨by decide, escape_nobt s htame, by decide⟩
      | arr xs =>
        simp only [tameJson] at htame
        simp only [serJ, sizeJ] at hsz ⊢
        rw [List.all_cons, List.all_append, Bool.and_eq_true, Bool.and_eq_true]
        exact ⟨by decide, (ih.2.1) xs (by omega) htame, by decide⟩
      | obj fs =>
        simp only [tameJson] at htame
        simp only [serJ, sizeJ] at hsz ⊢
        rw [List.all_cons, List.all_append, Bool.and_eq_true, Bool.and_eq_true]
        exact ⟨by decide, (ih.2.2) fs (by omega) htame, by decide⟩
    · intro xs hsz ht
      cases xs with
      | nil => rfl
      | cons x t =>
        simp only [tameArr, Bool.and_eq_true] at ht
        simp only [sizeArr] at hsz
        rw [serArr_cons]
        rw [List.all_append, Bool.and_eq_true]
        refine ⟨(ih.1) x (by omega) ht.1, ?_⟩
        cases t with
        | nil => rfl
        | cons y t' =>
          rw [List.all_cons, Bool.and_eq_true]
          have hszt : sizeArr (y :: t') ≤ N := by
            have := sizeJ_pos x
            omega
          exact ⟨by decide, (ih.2.1) (y :: t') hszt ht.2⟩
    · intro fs hsz ht
      cases fs with
      | nil => rfl
      | cons p t =>
        obtain ⟨k, v⟩ := p
        simp only [tameObj, Bool.and_eq_true] at ht
        simp only [sizeObj] at hsz
        rw [serObj_cons]
        rw [List.all_append, Bool.and_eq_true]
        constructor
        · rw [List.all_append, Bool.and_eq_true]
          constructor
          · simp only [serStr]
            rw [List.all_cons, List.all_append, Bool.and_eq_true, Bool.and_eq_true]
            exact ⟨by decide, escape_nobt k ht.1.1, by decide⟩
          · rw [List.all_cons, Bool.and_eq_true]
            exact ⟨by decide, (ih.1) v (by omega) ht.1.2⟩
        · cases t with
          | nil => rfl
          | cons p' t' =>
            rw [List.all_cons, Bool.and_eq_true]
            have hszt : sizeObj (p' :: t') ≤ N := by
              have := sizeJ_pos v
              omega
            exact ⟨by decide, (ih.2.2) (p' :: t') hszt ht.2⟩

theorem serJ_nobt (j : Json) (h : tameJson j = true) :
    (serJ j).all (fun c => c != btick) = true :=
  (ser_nobt_main (sizeJ j)).1 j (Nat.le_refl _) h

theorem serArr_nobt (xs : List Json) (h : tameArr xs = true) :
    (serArr xs).all (fun c => c != btick) = true :=
  (ser_nobt_main (sizeArr xs)).2.1 xs (Nat.le_refl _) h

theorem serObj_nobt (fs : List (List Char × Json)) (h : tameObj fs = true) :
    (serObj fs).all (fun c => c != btick) = true :=
  (ser_nobt_main (sizeObj fs)).2.2 fs (Nat.le_refl _) h


theorem serArr_cons_ne_nil (x : Json) (t : List Json) : serArr (x :: t) ≠ [] := by
  rw [serArr_cons]
  intro h
  rcases List.append_eq_nil.mp h with ⟨h1, _⟩
  exact serJ_ne_nil x h1

theorem serObj_cons_ne_nil (k : List Char) (v : Json) (t : List (List Char × Json)) :
    serObj ((k, v) :: t) ≠ [] := by
  rw [serObj_cons]
  intro h
  rcases List.append_eq_nil.mp h with ⟨h1, _⟩
  rcases List.append_eq_nil.mp h1 with ⟨h2, _⟩
  exact absurd h2 (by simp [serStr])

theorem skipWs_cons_not (c : Char) (r : List Char) (h : isJsonWs c = false) :
    skipWs (c :: r) = c :: r := by
  simp [skipWs, List.dropWhile_cons, h]

theorem starter_props {c : Char} (h : jsonStarter c = true) :
    ¬(c = ']') ∧ ¬(c = '}') ∧ ¬(c = ',') := by
  refine ⟨?_, ?_, ?_⟩ <;> (intro he; subst he; exact absurd h (by decide))

theorem digit_not_special {c : Char} (hd : Char.isDigit c = true) :
    ¬(c = '{') ∧ ¬(c = '[') ∧ ¬(c = '"') ∧ ¬(c = 't') ∧ ¬(c = 'f') ∧ ¬(c = 'n') := by
  refine ⟨?_, ?_, ?_, ?_, ?_, ?_⟩ <;> (intro he; subst he; exact absurd hd (by decide))

theorem parseV_num_dispatch (f : Nat) (c : Char) (r : List Char)
    (h : c = '-' ∨ Char.isDigit c = true) :
    parseV (f + 1) (c :: r) = parseNum (c :: r) := by
  rcases h with rfl | hd
  · simp only [parseV]
    rw [if_neg (by decide), if_neg (by decide), if_neg (by decide), if_neg (by decide),
      if_neg (by decide), if_neg (by decide), if_pos (by decide)]
  · obtain ⟨h1, h2, h3, h4, h5, h6⟩ := digit_not_special hd
    simp only [parseV]
    rw [if_neg h1, if_neg h2, if_neg h3, if_neg h4, if_neg h5, if_neg h6,
      if_pos (by simp [hd])]

theorem serArr_eq_tail (x : Json) (t : List Json) :
    serArr (x :: t) = serJ x ++ serArrTail t := by
  cases t with
  | nil => simp [serArr, serArrTail]
  | cons y t' => simp [serArr, serArrTail]

theorem serObj_eq_tail (k : List Char) (v : Json) (t : List (List Char × Json)) :
    serObj ((k, v) :: t) = (serStr k ++ (':' :: serJ v)) ++ serObjTail t := by
  cases t with
  | nil => simp [serObj, serObjTail]
  | cons p t' => obtain ⟨k2, v2⟩ := p; simp [serObj, serObjTail]

theorem starter_not_ws {c : Char} (h : jsonStarter c = true) :
    isPySpace c = false ∧ isJsonWs c = false ∧ ¬(c = btick) := by
  refine ⟨?_, ?_, ?_⟩
  · cases hp : isPySpace c with
    | false => rfl
    | true =>
      exfalso
      simp only [isPySpace, Bool.or_eq_true, decide_eq_true_eq] at hp
      rcases hp with ((((hp | hp) | hp) | hp) | hp) | hp <;>
        (subst hp; exact absurd h (by decide))
  · cases hp : isJsonWs c with
    | false => rfl
    | true =>
      exfalso
      simp only [isJsonWs, Bool.or_eq_true, decide_eq_true_eq] at hp
      rcases hp with ((hp | hp) | hp) | hp <;> (subst hp; exact absurd h (by decide))
  · intro he
    subst he
    exact absurd h (by decide)

theorem skipWs_serJ (j : Json) (r : List Char) :
    skipWs (serJ j ++ r) = serJ j ++ r := by
  obtain ⟨c, t, hc, hst⟩ := serJ_head j
  rw [hc, List.cons_append, skipWs_cons_not _ _ (starter_not_ws hst).2.1]

theorem serArr_head (x : Json) (t : List Json) :
    ∃ c s, serArr (x :: t) = c :: s ∧ jsonStarter c = true := by
  obtain ⟨c, s, hc, hst⟩ := serJ_head x
  exact ⟨c, s ++ serArrTail t, by rw [serArr_eq_tail, hc, List.cons_append], hst⟩

theorem skipWs_serArr (x : Json) (tl : List Json) (r : List Char) :
    skipWs (serArr (x :: tl) ++ r) = serArr (x :: tl) ++ r := by
  obtain ⟨c, s, hc, hst⟩ := serArr_head x tl
  rw [hc, List.cons_append, skipWs_cons_not _ _ (starter_not_ws hst).2.1]

theorem serObj_head (k : List Char) (v : Json) (t : List (List Char × Json)) :
    ∃ s, serObj ((k, v) :: t) = '"' :: s := by
  refine ⟨(escapeStr k ++ ['"']) ++ ((':' :: serJ v) ++ serObjTail t), ?_⟩
  rw [serObj_eq_tail]
  simp [serStr, List.cons_append, List.append_assoc]

theorem skipWs_serObj (k : List Char) (v : Json) (t : List (List Char × Json)) (r : List Char) :
    skipWs (serObj ((k, v) :: t) ++ r) = serObj ((k, v) :: t) ++ r := by
  obtain ⟨s, hc⟩ := serObj_head k v t
  rw [hc, List.cons_append, skipWs_cons_not _ _ (by decide)]

theorem parse_ser : ∀ F,
    (∀ j rest, tameJson j = true → sizeJ j ≤ F → noDigitHead rest = true →
        parseV F (serJ j ++ rest) = some (j, rest))
    ∧ (∀ xs rest, tameArr xs = true → xs ≠ [] → sizeArr xs ≤ F →
        parseElems F (serArr xs ++ (']' :: rest)) = some (xs, rest))
    ∧ (∀ fs rest, tameObj fs = true → fs ≠ [] → sizeObj fs ≤ F →
        parseFields F (serObj fs ++ ('}' :: rest)) = some (fs, rest)) := by
  intro F
  induction F using Nat.strong_induction_on with
  | _ F ih =>
  refine ⟨?_, ?_, ?_⟩
  · intro j rest htame hsz hnd
    obtain ⟨F', rfl⟩ : ∃ k, F = k + 1 := ⟨F - 1, by have := sizeJ_pos j; omega⟩
    cases j with
    | null =>
      have hd : serJ Json.null ++ rest = 'n' :: (chars "ull" ++ rest) := rfl
      rw [hd]
      simp only [parseV]
      rw [if_neg (by decide), if_neg (by decide), if_neg (by decide), if_neg (by decide),
        if_neg (by decide), if_pos (by decide), if_pos (isPre_refl_append (chars "ull") rest)]
      have h3 : (chars "ull" ++ rest).drop 3 = rest := by
        have hl : (chars "ull").length = 3 := rfl
        rw [← hl, List.drop_left]
      rw [h3]
    | bool b =>
      cases b with
      | true =>
        have hd : serJ (Json.bool true) ++ rest = 't' :: (chars "rue" ++ rest) := rfl
        rw [hd]
        simp only [parseV]
        rw [if_neg (by decide), if_neg (by decide), if_neg (by decide), if_pos (by decide),
          if_pos (isPre_refl_append (chars "rue") rest)]
        have h3 : (chars "rue" ++ rest).drop 3 = rest := by
          have hl : (chars "rue").length = 3 := rfl
          rw [← hl, List.drop_left]
        rw [h3]
      | false =>
        have hd : serJ (Json.bool false) ++ rest = 'f' :: (chars "alse" ++ rest) := rfl
        rw [hd]
        simp only [parseV]
        rw [if_neg (by decide), if_neg (by decide), if_neg (by decide), if_neg (by decide),
          if_pos (by decide), if_pos (isPre_refl_append (chars "alse") rest)]
        have h4 : (chars "alse" ++ rest).drop 4 = rest := by
          have hl : (chars "alse").length = 4 := rfl
          rw [← hl, List.drop_left]
        rw [h4]
    | num n =>
      have hsj : serJ (Json.num n) = intChars n := rfl
      by_cases hneg : n < 0
      · have hic : intChars n = '-' :: natChars n.natAbs := by
          unfold intChars
          rw [if_pos hneg]
        rw [hsj, hic, List.cons_append, parseV_num_dispatch F' '-' _ (Or.inl rfl),
          ← List.cons_append, ← hic, parseNum_intChars n rest hnd]
      · have hic : intChars n = natChars n.toNat := by
          unfold intChars
          rw [if_neg hneg]
        obtain ⟨hall, hne, _, _⟩ := natChars_spec n.toNat
        cases hcons : natChars n.toNat with
        | nil => exact absurd hcons hne
        | cons c0 t0 =>
          have hd0 : digitOK c0 = true := by
            rw [hcons] at hall
            simp only [List.all_cons, Bool.and_eq_true] at hall
            exact hall.1
          rw [hsj, hic, hcons, List.cons_append,
            parseV_num_dispatch F' c0 _ (Or.inr (digitOK_isDigit hd0)),
            ← List.cons_append, ← hcons, ← hic, parseNum_intChars n rest hnd]
    | str s =>
      simp only [tameJson] at htame
      have hd : serJ (Json.str s) ++ rest = '"' :: (escapeStr s ++ ('"' :: rest)) := by
        simp [serJ, serStr, List.append_assoc]
      rw [hd]
      simp only [parseV]
      rw [if_neg (by decide), if_neg (by decide), if_pos (by decide), parseStrBody_escape s htame rest]
    | arr xs =>
      simp only [tameJson] at htame
      simp only [sizeJ] at hsz
      have hd : serJ (Json.arr xs) ++ rest = '[' :: (serArr xs ++ (']' :: rest)) := by
        simp [serJ, List.append_assoc]
      rw [hd]
      simp only [parseV]
      rw [if_neg (by decide), if_pos (by decide)]
      cases xs with
      | nil =>
        obtain ⟨F'', rfl⟩ : ∃ m, F' = m + 1 := ⟨F' - 1, by simp only [sizeArr] at hsz; omega⟩
        rw [show serArr ([] : List Json) ++ (']' :: rest) = ']' :: rest from rfl]
        rw [skipWs_cons_not ']' rest (by decide)]
        simp only [parseArrBody]
        rw [if_pos (by decide)]
      | cons x t =>
        rw [skipWs_serArr x t _]
        obtain ⟨F'', rfl⟩ : ∃ m, F' = m + 1 :=
          ⟨F' - 1, by simp only [sizeArr] at hsz; have := sizeJ_pos x; omega⟩
        obtain ⟨c0, t0, hc0, hst⟩ := serJ_head x
        have hd2 : serArr (x :: t) ++ (']' :: rest)
            = c0 :: (t0 ++ (serArrTail t ++ (']' :: rest))) := by
          rw [serArr_eq_tail, hc0]
          simp [List.append_assoc]
        rw [hd2]
        simp only [parseArrBody]
        rw [if_neg (starter_props hst).1]
        rw [← hd2]
        rw [(ih F'' (by omega)).2.1 (x :: t) rest htame (by simp) (by omega)]
    | obj fs =>
      simp only [tameJson] at htame
      simp only [sizeJ] at hsz
      have hd : serJ (Json.obj fs) ++ rest = '{' :: (serObj fs ++ ('}' :: rest)) := by
        simp [serJ, List.append_assoc]
      rw [hd]
      simp only [parseV]
      rw [if_pos (by decide)]
      cases fs with
      | nil =>
        obtain ⟨F'', rfl⟩ : ∃ m, F' = m + 1 := ⟨F' - 1, by simp only [sizeObj] at hsz; omega⟩
        rw [show serObj ([] : List (List Char × Json)) ++ ('}' :: rest) = '}' :: rest from rfl]
        rw [skipWs_cons_not '}' rest (by decide)]
        simp only [parseObjBody]
        rw [if_pos (by decide)]
      | cons p t =>
        obtain ⟨k, v⟩ := p
        rw [skipWs_serObj k v t _]
        obtain ⟨F'', rfl⟩ : ∃ m, F' = m + 1 :=
          ⟨F' - 1, by simp only [sizeObj] at hsz; have := sizeJ_pos v; omega⟩
        have hd2 : serObj ((k, v) :: t) ++ ('}' :: rest)
            = '"' :: ((escapeStr k ++ ['"']) ++ ((':' :: serJ v)
                ++ (serObjTail t ++ ('}' :: rest)))) := by
          rw [serObj_eq_tail]
          simp [serStr, List.append_assoc]
        rw [hd2]
        simp only [parseObjBody]
        rw [if_neg (by decide : ¬(('"' : Char) = '}'))]
        rw [← hd2]
        rw [(ih F'' (by omega)).2.2 ((k, v) :: t) rest htame (by simp) (by omega)]
  · intro xs rest htame hne hsz
    cases xs with
    | nil => exact absurd rfl hne
    | cons x t =>
      simp only [tameArr, Bool.and_eq_true] at htame
      simp only [sizeArr] at hsz
      obtain ⟨g, rfl⟩ : ∃ m, F = m + 1 := ⟨F - 1, by have := sizeJ_pos x; omega⟩
      cases t with
      | nil =>
        have hx := (ih g (by omega)).1 x (']' :: rest) htame.1 (by omega) rfl
        have hs1 : skipWs (']' :: rest) = ']' :: rest := skipWs_cons_not _ _ (by decide)
        rw [show serArr [x] ++ (']' :: rest) = serJ x ++ (']' :: rest) from rfl]
        simp only [parseElems]
        simp [hx, hs1]
      | cons y t' =>
        have hd : serArr (x :: y :: t') ++ (']' :: rest)
            = serJ x ++ (',' :: (serArr (y :: t') ++ (']' :: rest))) := by
          rw [serArr_cons]
          simp [List.append_assoc]
        have hx := (ih g (by omega)).1 x (',' :: (serArr (y :: t') ++ (']' :: rest)))
          htame.1 (by omega) rfl
        have hs1 : skipWs (',' :: (serArr (y :: t') ++ (']' :: rest)))
            = ',' :: (serArr (y :: t') ++ (']' :: rest)) := skipWs_cons_not _ _ (by decide)
        have hs2 : skipWs (serArr (y :: t') ++ (']' :: rest))
            = serArr (y :: t') ++ (']' :: rest) :=
          skipWs_serArr y t' _
        have hy := (ih g (by omega)).2.1 (y :: t') rest htame.2 (by simp)
          (by have := sizeJ_pos x; omega)
        rw [hd]
        simp only [parseElems]
        simp [hx, hs1, hs2, hy]
  · intro fs rest htame hne hsz
    cases fs with
    | nil => exact absurd rfl hne
    | cons p t =>
      obtain ⟨k, v⟩ := p
      simp only [tameObj, Bool.and_eq_true] at htame
      obtain ⟨⟨hk, hv⟩, ht⟩ := htame
      simp only [sizeObj] at hsz
      obtain ⟨g, rfl⟩ : ∃ m, F = m + 1 := ⟨F - 1, by have := sizeJ_pos v; omega⟩
      cases t with
      | nil =>
        have hd : serObj [(k, v)] ++ ('}' :: rest)
            = '"' :: (escapeStr k ++ ('"' :: (':' :: (serJ v ++ ('}' :: rest))))) := by
          simp [serObj, serStr, List.append_assoc]
        have hks := parseStrBody_escape k hk (':' :: (serJ v ++ ('}' :: rest)))
        have hs1 : skipWs (':' :: (serJ v ++ ('}' :: rest)))
            = ':' :: (serJ v ++ ('}' :: rest)) := skipWs_cons_not _ _ (by decide)
        have hsv : skipWs (serJ v ++ ('}' :: rest)) = serJ v ++ ('}' :: rest) :=
          skipWs_serJ v _
        have hvv := (ih g (by omega)).1 v ('}' :: rest) hv (by omega) rfl
        have hs2 : skipWs ('}' :: rest) = '}' :: rest := skipWs_cons_not _ _ (by decide)
        rw [hd]
        simp only [parseFields]
        simp [hks, hs1, hsv, hvv, hs2]
      | cons p' t' =>
        obtain ⟨k2, v2⟩ := p'
        have hd : serObj ((k, v) :: (k2, v2) :: t') ++ ('}' :: rest)
            = '"' :: (escapeStr k ++ ('"' :: (':' :: (serJ v
                ++ (',' :: (serObj ((k2, v2) :: t') ++ ('}' :: rest))))))) := by
          rw [serObj_cons]
          simp [serStr, List.append_assoc]
        have hks := parseStrBody_escape k hk
          (':' :: (serJ v ++ (',' :: (serObj ((k2, v2) :: t') ++ ('}' :: rest)))))
        have hs1 : skipWs (':' :: (serJ v ++ (',' :: (serObj ((k2, v2) :: t') ++ ('}' :: rest)))))
            = ':' :: (serJ v ++ (',' :: (serObj ((k2, v2) :: t') ++ ('}' :: rest)))) :=
          skipWs_cons_not _ _ (by decide)
        have hsv : skipWs (serJ v ++ (',' :: (serObj ((k2, v2) :: t') ++ ('}' :: rest))))
            = serJ v ++ (',' :: (serObj ((k2, v2) :: t') ++ ('}' :: rest))) :=
          skipWs_serJ v _
        have hvv := (ih g (by omega)).1 v
          (',' :: (serObj ((k2, v2) :: t') ++ ('}' :: rest))) hv (by omega) rfl
        have hs2 : skipWs (',' :: (serObj ((k2, v2) :: t') ++ ('}' :: rest)))
            = ',' :: (serObj ((k2, v2) :: t') ++ ('}' :: rest)) :=
          skipWs_cons_not _ _ (by decide)
        have hs3 : skipWs (serObj ((k2, v2) :: t') ++ ('}' :: rest))
            = serObj ((k2, v2) :: t') ++ ('}' :: rest) :=
          skipWs_serObj k2 v2 t' _
        have hrec := (ih g (by omega)).2.2 ((k2, v2) :: t') rest ht (by simp)
          (by have := sizeJ_pos v; omega)
        rw [hd]
        simp only [parseFields]
        simp [hks, hs1, hsv, hvv, hs2, hs3, hrec]

theorem size_le_len : ∀ N,
    (∀ j, sizeJ j ≤ N → sizeJ j ≤ 3 * (serJ j).length)
    ∧ (∀ xs, sizeArr xs ≤ N → sizeArr xs ≤ 3 * (serArr xs).length + 1)
    ∧ (∀ fs, sizeObj fs ≤ N → sizeObj fs ≤ 3 * (serObj fs).length + 1) := by
  intro N
  induction N with
  | zero =>
    refine ⟨?_, ?_, ?_⟩
    · intro j hsz
      have := sizeJ_pos j
      omega
    · intro xs hsz
      cases xs with
      | nil => simp [sizeArr]
      | cons x t => simp only [sizeArr] at hsz; have := sizeJ_pos x; omega
    · intro fs hsz
      cases fs with
      | nil => simp [sizeObj]
      | cons p t =>
        obtain ⟨k, v⟩ := p
        simp only [sizeObj] at hsz
        have := sizeJ_pos v
        omega
  | succ N ih =>
    refine ⟨?_, ?_, ?_⟩
    · intro j hsz
      cases j with
      | null =>
        have hl := List.length_pos.mpr (serJ_ne_nil Json.null)
        simp only [sizeJ]
        omega
      | bool b =>
        have hl := List.length_pos.mpr (serJ_ne_nil (Json.bool b))
        simp only [sizeJ]
        omega
      | num n =>
        have hl := List.length_pos.mpr (serJ_ne_nil (Json.num n))
        simp only [sizeJ]
        omega
      | str s =>
        have hl := List.length_pos.mpr (serJ_ne_nil (Json.str s))
        simp only [sizeJ]
        omega
      | arr xs =>
        simp only [sizeJ] at hsz ⊢
        have hxs := ih.2.1 xs (by omega)
        simp only [serJ, List.length_cons, List.length_append, List.length_singleton]
        omega
      | obj fs =>
        simp only [sizeJ] at hsz ⊢
        have hfs := ih.2.2 fs (by omega)
        simp only [serJ, List.length_cons, List.length_append, List.length_singleton]
        omega
    · intro xs hsz
      cases xs with
      | nil => simp [sizeArr]
      | cons x t =>
        simp only [sizeArr] at hsz ⊢
        rw [serArr_eq_tail, List.length_append]
        have hx := ih.1 x (by omega)
        cases t with
        | nil =>
          simp only [serArrTail, List.length_nil, sizeArr]
          omega
        | cons y t' =>
          have hyt : sizeArr (y :: t') ≤ N := by
            have := sizeJ_pos x
            omega
          have hrec := ih.2.1 (y :: t') hyt
          simp only [serArrTail, List.length_cons]
          omega
    · intro fs hsz
      cases fs with
      | nil => simp [sizeObj]
      | cons p t =>
        obtain ⟨k, v⟩ := p
        simp only [sizeObj] at hsz ⊢
        rw [serObj_eq_tail, List.length_append, List.length_append]
        have hv := ih.1 v (by omega)
        cases t with
        | nil =>
          simp only [serObjTail, List.length_nil, sizeObj, List.length_cons]
          omega
        | cons p' t' =>
          have hpt : sizeObj (p' :: t') ≤ N := by
            have := sizeJ_pos v
            omega
          have hrec := ih.2.2 (p' :: t') hpt
          simp only [serObjTail, List.length_cons]
          omega

theorem sizeJ_le_len (j : Json) : sizeJ j ≤ 3 * (serJ j).length :=
  (size_le_len (sizeJ j)).1 j (Nat.le_refl _)

theorem parseJson_serJ (j : Json) (h : tameJson j = true) : parseJson (serJ j) = some j := by
  have hsw : skipWs (serJ j) = serJ j := by
    have hg := skipWs_serJ j []
    simpa using hg
  have hp := (parse_ser (3 * (serJ j).length + 3)).1 j [] h
    (by have := sizeJ_le_len j; omega) rfl
  rw [List.append_nil] at hp
  unfold parseJson
  rw [hsw, hp]
  simp [skipWs]

theorem parseV_notStarter : ∀ (f : Nat) (c : Char) (r : List Char),
    jsonStarter c = false → parseV f (c :: r) = none := by
  intro f c r h
  have hbr : ¬(c = '{') := fun he => by subst he; exact absurd h (by decide)
  have hbk : ¬(c = '[') := fun he => by subst he; exact absurd h (by decide)
  have hq : ¬(c = '"') := fun he => by subst he; exact absurd h (by decide)
  have htt : ¬(c = 't') := fun he => by subst he; exact absurd h (by decide)
  have hff : ¬(c = 'f') := fun he => by subst he; exact absurd h (by decide)
  have hnn : ¬(c = 'n') := fun he => by subst he; exact absurd h (by decide)
  have hmm : ¬(c = '-') := fun he => by subst he; exact absurd h (by decide)
  have hdg : Char.isDigit c = false := by
    cases hdig : Char.isDigit c with
    | false => rfl
    | true =>
      exfalso
      have : jsonStarter c = true := by simp [jsonStarter, hdig]
      rw [h] at this
      exact Bool.false_ne_true this
  cases f with
  | zero => rfl
  | succ f' =>
    simp only [parseV]
    rw [if_neg hbr, if_neg hbk, if_neg hq, if_neg htt, if_neg hff, if_neg hnn,
      if_neg (by simp [hmm, hdg])]

theorem parseJson_notStarter (c : Char) (r : List Char)
    (hns : jsonStarter c = false) (hws : isJsonWs c = false) :
    parseJson (c :: r) = none := by
  unfold parseJson
  rw [skipWs_cons_not c r hws, parseV_notStarter _ c r hns]

theorem isPre_cons_ne (x y : Char) (xs ys : List Char) (h : ¬(x = y)) :
    isPre (x :: xs) (y :: ys) = false := by
  simp [isPre, h]

theorem dropWhile_append_pos (p : Char → Bool) :
    ∀ (l1 l2 : List Char), l1.dropWhile p ≠ [] →
      (l1 ++ l2).dropWhile p = l1.dropWhile p ++ l2 := by
  intro l1
  induction l1 with
  | nil => intro l2 h; exact absurd rfl h
  | cons a t ih =>
    intro l2 h
    by_cases hp : p a = true
    · have h' : t.dropWhile p ≠ [] := by rwa [List.dropWhile_cons, if_pos hp] at h
      rw [List.cons_append, List.dropWhile_cons, List.dropWhile_cons, if_pos hp, if_pos hp]
      exact ih l2 h'
    · rw [List.cons_append, List.dropWhile_cons, List.dropWhile_cons, if_neg hp, if_neg hp]
      simp

theorem dropWhile_head_spec (p : Char → Bool) :
    ∀ (l : List Char) (c : Char) (w : List Char), l.dropWhile p = c :: w →
      p c = false ∧ c ∈ l := by
  intro l
  induction l with
  | nil => intro c w h; exact absurd h (by simp)
  | cons a t ih =>
    intro c w h
    by_cases hp : p a = true
    · rw [List.dropWhile_cons, if_pos hp] at h
      obtain ⟨h1, h2⟩ := ih c w h
      exact ⟨h1, List.mem_cons_of_mem a h2⟩
    · rw [List.dropWhile_cons, if_neg hp] at h
      obtain ⟨rfl, -⟩ := List.cons.inj h
      exact ⟨by simpa using hp, List.mem_cons_self a t⟩

theorem dropWhile_ne_nil_of_mem (p : Char → Bool) (l : List Char) (x : Char)
    (hx : x ∈ l) (hpx : p x = false) : l.dropWhile p ≠ [] := by
  intro h
  rw [List.dropWhile_eq_nil_iff] at h
  have hh := h x hx
  rw [hpx] at hh
  exact Bool.false_ne_true hh

theorem dropTrailing_cons (c : Char) (M : List Char)
    (h : M.reverse.dropWhile isPySpace ≠ []) :
    dropTrailingWs (c :: M) = c :: dropTrailingWs M := by
  unfold dropTrailingWs
  rw [List.reverse_cons, dropWhile_append_pos isPySpace M.reverse [c] h, List.reverse_append]
  simp


theorem dropWhile_append_stop (p : Char → Bool) :
    ∀ (a b : List Char), b.dropWhile p = b →
      (a ++ b).dropWhile p = a.dropWhile p ++ b := by
  intro a
  induction a with
  | nil =>
    intro b hb
    rw [List.nil_append, hb]
    rfl
  | cons x t ih =>
    intro b hb
    by_cases hp : p x = true
    · rw [List.cons_append, List.dropWhile_cons, List.dropWhile_cons, if_pos hp, if_pos hp,
        ih b hb]
    · rw [List.cons_append, List.dropWhile_cons, List.dropWhile_cons, if_neg hp, if_neg hp,
        List.cons_append]

theorem dropWhile_append_all (p : Char → Bool) :
    ∀ (a b : List Char), a.dropWhile p = [] → b.dropWhile p = b →
      (a ++ b).dropWhile p = b := by
  intro a
  induction a with
  | nil =>
    intro b _ hb
    rw [List.nil_append, hb]
  | cons x t ih =>
    intro b ha hb
    rw [List.dropWhile_cons] at ha
    by_cases hp : p x = true
    · rw [if_pos hp] at ha
      rw [List.cons_append, List.dropWhile_cons, if_pos hp]
      exact ih b ha hb
    · rw [if_neg hp] at ha
      exact absurd ha (by simp)

theorem all_dropWhile (q p : Char → Bool) (l : List Char) (h : l.all q = true) :
    (l.dropWhile p).all q = true := by
  induction l with
  | nil => rfl
  | cons x t ih =>
    simp only [List.all_cons, Bool.and_eq_true] at h
    rw [List.dropWhile_cons]
    by_cases hp : p x = true
    · rw [if_pos hp]
      exact ih h.2
    · rw [if_neg hp]
      simp [List.all_cons, h.1, h.2]

theorem all_drop (q : Char → Bool) (n : Nat) (l : List Char) (h : l.all q = true) :
    (l.drop n).all q = true := by
  rw [List.all_eq_true] at h ⊢
  intro x hx
  exact h x (List.mem_of_mem_drop hx)

theorem drop_append_le : ∀ (n : Nat) (a b : List Char), n ≤ a.length →
    (a ++ b).drop n = a.drop n ++ b := by
  intro n
  induction n with
  | zero => intro a b _; rfl
  | succ m ih =>
    intro a b h
    cases a with
    | nil => simp at h
    | cons x t =>
      rw [List.cons_append]
      simp only [List.drop_succ_cons]
      exact ih t b (by simpa using h)

theorem dropWhile_pys_head_append (close : Char) (F : List Char)
    (hcw : isPySpace close = false) :
    ∀ t : List Char, ∃ h0 r2, (t ++ (close :: F)).dropWhile isPySpace = h0 :: r2
      ∧ (h0 ∈ t ∨ h0 = close) := by
  intro t
  induction t with
  | nil =>
    rw [List.nil_append, List.dropWhile_cons, if_neg (by simp [hcw])]
    exact ⟨close, F, rfl, Or.inr rfl⟩
  | cons x xs ih =>
    rw [List.cons_append, List.dropWhile_cons]
    by_cases hp : isPySpace x = true
    · rw [if_pos hp]
      obtain ⟨h0, r2, heq, hmem⟩ := ih
      refine ⟨h0, r2, heq, ?_⟩
      rcases hmem with h | h
      · exact Or.inl (List.mem_cons_of_mem x h)
      · exact Or.inr h
    · rw [if_neg hp]
      exact ⟨x, xs ++ (close :: F), rfl, Or.inl (List.mem_cons_self x xs)⟩

theorem ngFenceAux_run (close : Char) (p2 : List Char)
    (hcw : isPySpace close = false) (hcb : ¬(close = btick)) :
    ∀ (body acc : List Char), body.all noBtick = true →
      ngFenceAux close acc (body ++ (close :: (chars "\n```" ++ p2)))
        = some (acc.reverse ++ (body ++ [close])) := by
  intro body
  induction body with
  | nil =>
    intro acc _
    have h1 : (chars "```" ++ p2).dropWhile isPySpace = chars "```" ++ p2 := by
      rw [show chars "```" ++ p2 = btick :: (chars "``" ++ p2) from rfl,
        List.dropWhile_cons, if_neg (by decide)]
    have hdw : (chars "\n```" ++ p2).dropWhile isPySpace = chars "```" ++ p2 := by
      rw [show chars "\n```" ++ p2 = '\n' :: (chars "```" ++ p2) from rfl,
        List.dropWhile_cons, if_pos (by decide), h1]
    rw [List.nil_append]
    simp only [ngFenceAux]
    rw [if_pos (by rw [hdw]; simp [isPre_refl_append])]
    simp
  | cons c t ih =>
    intro acc hb
    simp only [List.all_cons, Bool.and_eq_true] at hb
    obtain ⟨h0, r2, heq, hmem⟩ := dropWhile_pys_head_append close (chars "\n```" ++ p2) hcw t
    have h0b : ¬(h0 = btick) := by
      rcases hmem with h | h
      · have := List.all_eq_true.mp hb.2 h0 h
        simpa [noBtick] using this
      · subst h
        exact hcb
    have hneg : ¬((decide (c = close) && isPre (chars "```")
        ((t ++ (close :: (chars "\n```" ++ p2))).dropWhile isPySpace)) = true) := by
      intro hcond
      rw [heq, show chars "```" = btick :: chars "``" from by decide,
        isPre_cons_ne _ _ _ _ (fun he => h0b he.symm)] at hcond
      simp at hcond
    rw [List.cons_append]
    simp only [ngFenceAux]
    rw [if_neg hneg, ih (c :: acc) hb.2]
    simp [List.append_assoc]

theorem strat3At_not_btick (c : Char) (r : List Char) (h : ¬(c = btick)) :
    strat3At (c :: r) = none := by
  have hp : isPre (chars "```") (c :: r) = false := by
    rw [show chars "```" = btick :: chars "``" from by decide,
      isPre_cons_ne _ _ _ _ (fun he => h he.symm)]
  simp only [strat3At]
  rw [hp, if_neg Bool.false_ne_true]

theorem searchSuffixes_skip (f : List Char → Option (List Char)) :
    ∀ (a b : List Char), (∀ (c : Char) (r : List Char), c ∈ a → f (c :: r) = none) →
      searchSuffixes f (a ++ b) = searchSuffixes f b := by
  intro a
  induction a with
  | nil => intro b _; rw [List.nil_append]
  | cons x t ih =>
    intro b h
    rw [List.cons_append]
    simp only [searchSuffixes]
    rw [h x (t ++ b) (List.mem_cons_self x t)]
    exact ih b (fun c r hc => h c r (List.mem_cons_of_mem x hc))

theorem searchSuffixes_hit (f : List Char → Option (List Char)) (c : Char) (r : List Char)
    (g : List Char) (h : f (c :: r) = some g) :
    searchSuffixes f (c :: r) = some g := by
  simp only [searchSuffixes]
  rw [h]

theorem strat3At_fence (j : Json) (p2 : List Char)
    (htame : tameJson j = true) (hshape : isObjOrArr j = true) :
    strat3At (chars "```json\n" ++ (serJ j ++ (chars "\n```" ++ p2))) = some (serJ j) := by
  have hsplit : chars "```json\n" = chars "```" ++ chars "json\n" := by decide
  have hpre1 : isPre (chars "```")
      (chars "```json\n" ++ (serJ j ++ (chars "\n```" ++ p2))) = true := by
    rw [hsplit, List.append_assoc]
    exact isPre_refl_append _ _
  have hdrop3 : (chars "```json\n" ++ (serJ j ++ (chars "\n```" ++ p2))).drop 3
      = chars "json\n" ++ (serJ j ++ (chars "\n```" ++ p2)) := by
    rw [hsplit, List.append_assoc, show (3 : Nat) = (chars "```").length from rfl,
      List.drop_left]
  have hsplit2 : chars "json\n" = chars "json" ++ ['\n'] := by decide
  have hpre2 : isPre (chars "json")
      (chars "json\n" ++ (serJ j ++ (chars "\n```" ++ p2))) = true := by
    rw [hsplit2, List.append_assoc]
    exact isPre_refl_append _ _
  have hdrop4 : (chars "json\n" ++ (serJ j ++ (chars "\n```" ++ p2))).drop 4
      = '\n' :: (serJ j ++ (chars "\n```" ++ p2)) := by
    rw [hsplit2, List.append_assoc, show (4 : Nat) = (chars "json").length from rfl,
      List.drop_left]
    rfl
  simp only [strat3At]
  rw [if_pos hpre1, hdrop3, if_pos hpre2, hdrop4]
  cases j with
  | null => simp [isObjOrArr] at hshape
  | bool b => simp [isObjOrArr] at hshape
  | num n => simp [isObjOrArr] at hshape
  | str s => simp [isObjOrArr] at hshape
  | arr xs =>
    simp only [tameJson] at htame
    have hshape2 : serJ (Json.arr xs) ++ (chars "\n```" ++ p2)
        = '[' :: (serArr xs ++ (']' :: (chars "\n```" ++ p2))) := by
      simp [serJ, List.append_assoc]
    have hdw : (('\n' : Char) :: (serJ (Json.arr xs) ++ (chars "\n```" ++ p2))).dropWhile
        isPySpace = serJ (Json.arr xs) ++ (chars "\n```" ++ p2) := by
      rw [List.dropWhile_cons, if_pos (by decide), hshape2, List.dropWhile_cons,
        if_neg (by decide)]
    rw [hdw, hshape2]
    have hng := ngFenceAux_run ']' p2 (by decide) (by decide) (serArr xs) ['[']
      (serArr_nobt xs htame)
    exact hng.trans (by simp [serJ])
  | obj fs =>
    simp only [tameJson] at htame
    have hshape2 : serJ (Json.obj fs) ++ (chars "\n```" ++ p2)
        = '{' :: (serObj fs ++ ('}' :: (chars "\n```" ++ p2))) := by
      simp [serJ, List.append_assoc]
    have hdw : (('\n' : Char) :: (serJ (Json.obj fs) ++ (chars "\n```" ++ p2))).dropWhile
        isPySpace = serJ (Json.obj fs) ++ (chars "\n```" ++ p2) := by
      rw [List.dropWhile_cons, if_pos (by decide), hshape2, List.dropWhile_cons,
        if_neg (by decide)]
    rw [hdw, hshape2]
    have hng := ngFenceAux_run '}' p2 (by decide) (by decide) (serObj fs) ['{']
      (serObj_nobt fs htame)
    exact hng.trans (by simp [serJ])

theorem strat3_fenced (p1 p2 : List Char) (j : Json)
    (htame : tameJson j = true) (hshape : isObjOrArr j = true)
    (h1 : p1.all noBtick = true) :
    strat3 (fencedInput p1 j p2) = some j := by
  have hI : fencedInput p1 j p2
      = p1 ++ (chars "```json\n" ++ (serJ j ++ (chars "\n```" ++ p2))) := by
    simp [fencedInput, List.append_assoc]
  have hskip : ∀ (c : Char) (r : List Char), c ∈ p1 → strat3At (c :: r) = none := by
    intro c r hc
    have := List.all_eq_true.mp h1 c hc
    exact strat3At_not_btick c r (by simpa [noBtick] using this)
  have hb : chars "```json\n" ++ (serJ j ++ (chars "\n```" ++ p2))
      = btick :: (chars "``json\n" ++ (serJ j ++ (chars "\n```" ++ p2))) := by
    rw [show chars "```json\n" = btick :: chars "``json\n" from by decide]
    rfl
  unfold strat3
  rw [hI, searchSuffixes_skip strat3At p1 _ hskip, hb,
    searchSuffixes_hit strat3At _ _ (serJ j)
      (by rw [← hb]; exact strat3At_fence j p2 htame hshape)]
  exact parseJson_serJ j htame

theorem strBody_cross (Y : List Char) : ∀ (X : List Char), X.all noBtick = true →
    (parseStrBody (X ++ (chars "```json\n" ++ Y)) = none
      ∨ ∃ s X', parseStrBody (X ++ (chars "```json\n" ++ Y))
          = some (s, X' ++ (chars "```json\n" ++ Y)) ∧ X'.all noBtick = true)
    ∧ (parseStrEsc (X ++ (chars "```json\n" ++ Y)) = none
      ∨ ∃ s X', parseStrEsc (X ++ (chars "```json\n" ++ Y))
          = some (s, X' ++ (chars "```json\n" ++ Y)) ∧ X'.all noBtick = true) := by
  intro X
  induction X with
  | nil =>
    intro _
    constructor
    · left
      rw [List.nil_append, show chars "```json\n" ++ Y
          = btick :: (btick :: (btick :: ('j' :: ('s' :: ('o' :: ('n' :: ('\n' :: Y)))))))
        from rfl]
      simp [parseStrBody, show ¬(btick = '"') from by decide,
        show ¬(btick = '\\') from by decide, show ¬(btick.toNat < 32) from by decide]
    · left
      rw [List.nil_append, show chars "```json\n" ++ Y
          = btick :: (chars "``json\n" ++ Y) from rfl]
      simp [parseStrEsc, show unescapeChar btick = none from by decide]
  | cons c t ih =>
    intro hall
    simp only [List.all_cons, Bool.and_eq_true] at hall
    obtain ⟨hc, ht⟩ := hall
    have iht := ih ht
    constructor
    · rw [List.cons_append]
      by_cases h1 : c = '"'
      · right
        subst h1
        exact ⟨[], t, by simp [parseStrBody], ht⟩
      · by_cases h2 : c = '\\'
        · subst h2
          have hred : parseStrBody ('\\' :: (t ++ (chars "```json\n" ++ Y)))
              = parseStrEsc (t ++ (chars "```json\n" ++ Y)) := by
            simp [parseStrBody]
          rw [hred]
          exact iht.2
        · by_cases h32 : c.toNat < 32
          · left
            simp [parseStrBody, h1, h2, h32]
          · rcases iht.1 with hnone | ⟨s, X', heq, hX'⟩
            · left
              simp [parseStrBody, h1, h2, h32, hnone]
            · right
              refine ⟨c :: s, X', ?_, hX'⟩
              simp [parseStrBody, h1, h2, h32, heq]
    · rw [List.cons_append]
      cases hu : unescapeChar c with
      | none =>
        left
        simp [parseStrEsc, hu]
      | some d =>
        rcases iht.1 with hnone | ⟨s, X', heq, hX'⟩
        · left
          simp [parseStrEsc, hu, hnone]
        · right
          refine ⟨d :: s, X', ?_, hX'⟩
          simp [parseStrEsc, hu, heq]

theorem parseNumCore_cross (Y : List Char) (X : List Char) (hX : X.all noBtick = true) :
    parseNumCore (X ++ (chars "```json\n" ++ Y)) = none
    ∨ ∃ n X', parseNumCore (X ++ (chars "```json\n" ++ Y))
        = some (n, X' ++ (chars "```json\n" ++ Y)) ∧ X'.all noBtick = true := by
  cases X with
  | nil =>
    left
    rw [List.nil_append, show chars "```json\n" ++ Y = btick :: (chars "``json\n" ++ Y)
      from rfl]
    simp [parseNumCore, show ¬(btick = '0') from by decide,
      show Char.isDigit btick = false from by decide]
  | cons c X2 =>
    have hX2 : X2.all noBtick = true := by
      simp only [List.all_cons, Bool.and_eq_true] at hX
      exact hX.2
    rw [List.cons_append]
    by_cases h0 : c = '0'
    · right
      subst h0
      exact ⟨0, X2, by simp [parseNumCore], hX2⟩
    · by_cases hd : Char.isDigit c = true
      · right
        have hfy : (chars "```json\n" ++ Y).dropWhile Char.isDigit
            = chars "```json\n" ++ Y := by
          rw [show chars "```json\n" ++ Y = btick :: (chars "``json\n" ++ Y) from rfl,
            List.dropWhile_cons, if_neg (by decide)]
        have hdw : (c :: (X2 ++ (chars "```json\n" ++ Y))).dropWhile Char.isDigit
            = (c :: X2).dropWhile Char.isDigit ++ (chars "```json\n" ++ Y) := by
          rw [← List.cons_append, dropWhile_append_stop Char.isDigit (c :: X2) _ hfy]
        refine ⟨digitsToNat ((c :: (X2 ++ (chars "```json\n" ++ Y))).takeWhile Char.isDigit),
          (c :: X2).dropWhile Char.isDigit, ?_, all_dropWhile noBtick Char.isDigit (c :: X2) hX⟩
        simp only [parseNumCore, if_neg h0, hd, if_true]
        rw [hdw]
      · left
        simp [parseNumCore, h0, hd]

theorem parseNum_cross (Y : List Char) (X : List Char) (hX : X.all noBtick = true) :
    parseNum (X ++ (chars "```json\n" ++ Y)) = none
    ∨ ∃ v X', parseNum (X ++ (chars "```json\n" ++ Y))
        = some (v, X' ++ (chars "```json\n" ++ Y)) ∧ X'.all noBtick = true := by
  cases X with
  | nil =>
    left
    rw [List.nil_append, show chars "```json\n" ++ Y = btick :: (chars "``json\n" ++ Y)
      from rfl]
    simp [parseNum, parseNumCore, show ¬(btick = '-') from by decide,
      show ¬(btick = '0') from by decide, show Char.isDigit btick = false from by decide]
  | cons c X2 =>
    have hX2 : X2.all noBtick = true := by
      simp only [List.all_cons, Bool.and_eq_true] at hX
      exact hX.2
    rw [List.cons_append]
    by_cases hm : c = '-'
    · subst hm
      rcases parseNumCore_cross Y X2 hX2 with hnone | ⟨n, X', heq, hX'⟩
      · left
        simp [parseNum, hnone]
      · right
        refine ⟨Json.num (-(n : Int)), X', ?_, hX'⟩
        simp [parseNum, heq]
    · have hcore := parseNumCore_cross Y (c :: X2) hX
      rw [List.cons_append] at hcore
      rcases hcore with hnone | ⟨n, X', heq, hX'⟩
      · left
        simp [parseNum, hm, hnone]
      · right
        refine ⟨Json.num (n : Int), X', ?_, hX'⟩
        simp [parseNum, hm, heq]

theorem isPre_nobt_bound : ∀ (pat X Q' : List Char), pat.all noBtick = true →
    isPre pat (X ++ (btick :: Q')) = true → pat.length ≤ X.length := by
  intro pat
  induction pat with
  | nil => intro X Q' _ _; simp
  | cons a pt ih =>
    intro X Q' hall hpre
    simp only [List.all_cons, Bool.and_eq_true] at hall
    cases X with
    | nil =>
      rw [List.nil_append] at hpre
      exfalso
      simp only [isPre, Bool.and_eq_true, decide_eq_true_eq] at hpre
      have hb := hall.1
      simp only [noBtick, bne_iff_ne, ne_eq] at hb
      exact hb hpre.1
    | cons x X2 =>
      rw [List.cons_append] at hpre
      simp only [isPre, Bool.and_eq_true] at hpre
      have := ih X2 Q' hall.2 hpre.2
      simp only [List.length_cons]
      omega

theorem parse_cross (Y : List Char) : ∀ F,
    (∀ X, X.all noBtick = true →
      parseV F (X ++ (chars "```json\n" ++ Y)) = none
      ∨ ∃ v X', parseV F (X ++ (chars "```json\n" ++ Y))
          = some (v, X' ++ (chars "```json\n" ++ Y)) ∧ X'.all noBtick = true)
    ∧ (∀ X, X.all noBtick = true →
      parseArrBody F (X ++ (chars "```json\n" ++ Y)) = none
      ∨ ∃ v X', parseArrBody F (X ++ (chars "```json\n" ++ Y))
          = some (v, X' ++ (chars "```json\n" ++ Y)) ∧ X'.all noBtick = true)
    ∧ (∀ X, X.all noBtick = true →
      parseElems F (X ++ (chars "```json\n" ++ Y)) = none
      ∨ ∃ js X', parseElems F (X ++ (chars "```json\n" ++ Y))
          = some (js, X' ++ (chars "```json\n" ++ Y)) ∧ X'.all noBtick = true)
    ∧ (∀ X, X.all noBtick = true →
      parseObjBody F (X ++ (chars "```json\n" ++ Y)) = none
      ∨ ∃ v X', parseObjBody F (X ++ (chars "```json\n" ++ Y))
          = some (v, X' ++ (chars "```json\n" ++ Y)) ∧ X'.all noBtick = true)
    ∧ (∀ X, X.all noBtick = true →
      parseFields F (X ++ (chars "```json\n" ++ Y)) = none
      ∨ ∃ fs X', parseFields F (X ++ (chars "```json\n" ++ Y))
          = some (fs, X' ++ (chars "```json\n" ++ Y)) ∧ X'.all noBtick = true) := by
  intro F
  induction F with
  | zero =>
    refine ⟨?_, ?_, ?_, ?_, ?_⟩ <;> (intro X _; left; rfl)
  | succ f ih =>
    obtain ⟨ihV, ihA, ihE, ihO, ihF⟩ := ih
    have hBT : chars "```json\n" ++ Y = btick :: (chars "``json\n" ++ Y) := rfl
    have hFY : (chars "```json\n" ++ Y).dropWhile isJsonWs = chars "```json\n" ++ Y := by
      rw [hBT, List.dropWhile_cons, if_neg (by decide)]
    have hskip : ∀ Z : List Char, skipWs (Z ++ (chars "```json\n" ++ Y))
        = Z.dropWhile isJsonWs ++ (chars "```json\n" ++ Y) :=
      fun Z => dropWhile_append_stop isJsonWs Z _ hFY
    have hallskip : ∀ Z : List Char, Z.all noBtick = true →
        (Z.dropWhile isJsonWs).all noBtick = true :=
      fun Z hZ => all_dropWhile noBtick isJsonWs Z hZ
    refine ⟨?_, ?_, ?_, ?_, ?_⟩
    · -- parseV
      intro X hX
      cases X with
      | nil =>
        left
        rw [List.nil_append, hBT]
        simp only [parseV]
        rw [if_neg (by decide), if_neg (by decide), if_neg (by decide), if_neg (by decide),
          if_neg (by decide), if_neg (by decide), if_neg (by decide)]
      | cons c X2 =>
        have hX2 : X2.all noBtick = true := by
          simp only [List.all_cons, Bool.and_eq_true] at hX
          exact hX.2
        rw [List.cons_append]
        by_cases h1 : c = '{'
        · subst h1
          have hred : parseV (f + 1) ('{' :: (X2 ++ (chars "```json\n" ++ Y)))
              = parseObjBody f (X2.dropWhile isJsonWs ++ (chars "```json\n" ++ Y)) := by
            simp [parseV, hskip X2]
          rw [hred]
          exact ihO _ (hallskip X2 hX2)
        · by_cases h2 : c = '['
          · subst h2
            have hred : parseV (f + 1) ('[' :: (X2 ++ (chars "```json\n" ++ Y)))
                = parseArrBody f (X2.dropWhile isJsonWs ++ (chars "```json\n" ++ Y)) := by
              simp [parseV, hskip X2]
            rw [hred]
            exact ihA _ (hallskip X2 hX2)
          · by_cases h3 : c = '"'
            · subst h3
              rcases (strBody_cross Y X2 hX2).1 with hnone | ⟨s, X', heq, hX'⟩
              · left
                simp [parseV, hnone]
              · right
                exact ⟨Json.str s, X', by simp [parseV, heq], hX'⟩
            · by_cases h4 : c = 't'
              · subst h4
                by_cases hp : isPre (chars "rue") (X2 ++ (chars "```json\n" ++ Y)) = true
                · right
                  have hlen : (chars "rue").length ≤ X2.length :=
                    isPre_nobt_bound (chars "rue") X2 (chars "``json\n" ++ Y) (by decide) hp
                  have hdrop : (X2 ++ (chars "```json\n" ++ Y)).drop 3
                      = X2.drop 3 ++ (chars "```json\n" ++ Y) := by
                    rw [show (3 : Nat) = (chars "rue").length from rfl]
                    exact drop_append_le _ _ _ hlen
                  refine ⟨Json.bool true, X2.drop 3, ?_, all_drop noBtick 3 X2 hX2⟩
                  simp [parseV, hp, hdrop]
                · left
                  simp [parseV, hp]
              · by_cases h5 : c = 'f'
                · subst h5
                  by_cases hp : isPre (chars "alse") (X2 ++ (chars "```json\n" ++ Y)) = true
                  · right
                    have hlen : (chars "alse").length ≤ X2.length :=
                      isPre_nobt_bound (chars "alse") X2 (chars "``json\n" ++ Y) (by decide) hp
                    have hdrop : (X2 ++ (chars "```json\n" ++ Y)).drop 4
                        = X2.drop 4 ++ (chars "```json\n" ++ Y) := by
                      rw [show (4 : Nat) = (chars "alse").length from rfl]
                      exact drop_append_le _ _ _ hlen
                    refine ⟨Json.bool false, X2.drop 4, ?_, all_drop noBtick 4 X2 hX2⟩
                    simp [parseV, hp, hdrop]
                  · left
                    simp [parseV, hp]
                · by_cases h6 : c = 'n'
                  · subst h6
                    by_cases hp : isPre (chars "ull") (X2 ++ (chars "```json\n" ++ Y)) = true
                    · right
                      have hlen : (chars "ull").length ≤ X2.length :=
                        isPre_nobt_bound (chars "ull") X2 (chars "``json\n" ++ Y) (by decide) hp
                      have hdrop : (X2 ++ (chars "```json\n" ++ Y)).drop 3
                          = X2.drop 3 ++ (chars "```json\n" ++ Y) := by
                        rw [show (3 : Nat) = (chars "ull").length from rfl]
                        exact drop_append_le _ _ _ hlen
                      refine ⟨Json.null, X2.drop 3, ?_, all_drop noBtick 3 X2 hX2⟩
                      simp [parseV, hp, hdrop]
                    · left
                      simp [parseV, hp]
                  · by_cases h7 : c = '-'
                    · rw [parseV_num_dispatch f c _ (Or.inl h7), ← List.cons_append]
                      exact parseNum_cross Y (c :: X2) hX
                    · by_cases h8 : Char.isDigit c = true
                      · rw [parseV_num_dispatch f c _ (Or.inr h8), ← List.cons_append]
                        exact parseNum_cross Y (c :: X2) hX
                      · left
                        have h8' : Char.isDigit c = false := by
                          simpa using h8
                        simp [parseV, h1, h2, h3, h4, h5, h6, h7, h8']
    · -- parseArrBody
      intro X hX
      cases X with
      | nil =>
        rw [List.nil_append, hBT]
        have h := ihE [] rfl
        rw [List.nil_append, hBT] at h
        rcases h with hnone | ⟨js, X', heq, hX'⟩
        · left
          simp [parseArrBody, show ¬(btick = ']') from by decide, hnone]
        · right
          refine ⟨Json.arr js, X', ?_, hX'⟩
          simp [parseArrBody, show ¬(btick = ']') from by decide, heq]
      | cons c X2 =>
        have hX2 : X2.all noBtick = true := by
          simp only [List.all_cons, Bool.and_eq_true] at hX
          exact hX.2
        rw [List.cons_append]
        by_cases hc : c = ']'
        · subst hc
          right
          exact ⟨Json.arr [], X2, by simp [parseArrBody], hX2⟩
        · have h := ihE (c :: X2) hX
          rw [List.cons_append] at h
          rcases h with hnone | ⟨js, X', heq, hX'⟩
          · left
            simp [parseArrBody, hc, hnone]
          · right
            refine ⟨Json.arr js, X', ?_, hX'⟩
            simp [parseArrBody, hc, heq]
    · -- parseElems
      intro X hX
      rcases ihV X hX with hnone | ⟨j, X', heq, hX'⟩
      · left
        simp only [parseElems]
        rw [hnone]
      · have hX'd := hallskip X' hX'
        cases hdw2 : X'.dropWhile isJsonWs with
        | nil =>
          left
          have hsw1 : skipWs (X' ++ (chars "```json\n" ++ Y))
              = btick :: (chars "``json\n" ++ Y) := by
            rw [hskip X', hdw2, List.nil_append, hBT]
          simp [parseElems, heq, hsw1, show ¬(btick = ',') from by decide,
            show ¬(btick = ']') from by decide]
        | cons c2 X3 =>
          have hc2X3 : noBtick c2 = true ∧ X3.all noBtick = true := by
            have h := hX'd
            rw [hdw2] at h
            simp only [List.all_cons, Bool.and_eq_true] at h
            exact h
          have hsw1 : skipWs (X' ++ (chars "```json\n" ++ Y))
              = c2 :: (X3 ++ (chars "```json\n" ++ Y)) := by
            rw [hskip X', hdw2, List.cons_append]
          by_cases hc : c2 = ','
          · subst hc
            have hX3d := hallskip X3 hc2X3.2
            rcases ihE (X3.dropWhile isJsonWs) hX3d with hnone2 | ⟨js, X4, heq2, hX4⟩
            · left
              simp [parseElems, heq, hsw1, hskip X3, hnone2]
            · right
              refine ⟨j :: js, X4, ?_, hX4⟩
              simp [parseElems, heq, hsw1, hskip X3, heq2]
          · by_cases hc2 : c2 = ']'
            · subst hc2
              right
              refine ⟨[j], X3, ?_, hc2X3.2⟩
              simp [parseElems, heq, hsw1]
            · left
              simp [parseElems, heq, hsw1, hc, hc2]
    · -- parseObjBody
      intro X hX
      cases X with
      | nil =>
        rw [List.nil_append, hBT]
        have h := ihF [] rfl
        rw [List.nil_append, hBT] at h
        rcases h with hnone | ⟨fs, X', heq, hX'⟩
        · left
          simp [parseObjBody, show ¬(btick = '}') from by decide, hnone]
        · right
          refine ⟨Json.obj fs, X', ?_, hX'⟩
          simp [parseObjBody, show ¬(btick = '}') from by decide, heq]
      | cons c X2 =>
        have hX2 : X2.all noBtick = true := by
          simp only [List.all_cons, Bool.and_eq_true] at hX
          exact hX.2
        rw [List.cons_append]
        by_cases hc : c = '}'
        · subst hc
          right
          exact ⟨Json.obj [], X2, by simp [parseObjBody], hX2⟩
        · have h := ihF (c :: X2) hX
          rw [List.cons_append] at h
          rcases h with hnone | ⟨fs, X', heq, hX'⟩
          · left
            simp [parseObjBody, hc, hnone]
          · right
            refine ⟨Json.obj fs, X', ?_, hX'⟩
            simp [parseObjBody, hc, heq]
    · -- parseFields
      intro X hX
      cases X with
      | nil =>
        left
        rw [List.nil_append, hBT]
        simp [parseFields, show ¬(btick = '"') from by decide]
      | cons c X2 =>
        have hX2 : X2.all noBtick = true := by
          simp only [List.all_cons, Bool.and_eq_true] at hX
          exact hX.2
        rw [List.cons_append]
        by_cases hq : c = '"'
        · subst hq
          rcases (strBody_cross Y X2 hX2).1 with hnone | ⟨k, X', heq, hX'⟩
          · left
            simp [parseFields, hnone]
          · have hX'd := hallskip X' hX'
            cases hdw2 : X'.dropWhile isJsonWs with
            | nil =>
              left
              have hsw1 : skipWs (X' ++ (chars "```json\n" ++ Y))
                  = btick :: (chars "``json\n" ++ Y) := by
                rw [hskip X', hdw2, List.nil_append, hBT]
              simp [parseFields, heq, hsw1, show ¬(btick = ':') from by decide]
            | cons c1 X3 =>
              have hc1X3 : noBtick c1 = true ∧ X3.all noBtick = true := by
                have h := hX'd
                rw [hdw2] at h
                simp only [List.all_cons, Bool.and_eq_true] at h
                exact h
              have hsw1 : skipWs (X' ++ (chars "```json\n" ++ Y))
                  = c1 :: (X3 ++ (chars "```json\n" ++ Y)) := by
                rw [hskip X', hdw2, List.cons_append]
              by_cases hcol : c1 = ':'
              · subst hcol
                have hX3d := hallskip X3 hc1X3.2
                rcases ihV (X3.dropWhile isJsonWs) hX3d with hnoneV | ⟨v, X4, heqV, hX4⟩
                · left
                  simp [parseFields, heq, hsw1, hskip X3, hnoneV]
                · have hX4d := hallskip X4 hX4
                  cases hdw4 : X4.dropWhile isJsonWs with
                  | nil =>
                    left
                    have hsw3 : skipWs (X4 ++ (chars "```json\n" ++ Y))
                        = btick :: (chars "``json\n" ++ Y) := by
                      rw [hskip X4, hdw4, List.nil_append, hBT]
                    simp [parseFields, heq, hsw1, hskip X3, heqV, hsw3,
                      show ¬(btick = ',') from by decide, show ¬(btick = '}') from by decide]
                  | cons c3 X5 =>
                    have hc3X5 : noBtick c3 = true ∧ X5.all noBtick = true := by
                      have h := hX4d
                      rw [hdw4] at h
                      simp only [List.all_cons, Bool.and_eq_true] at h
                      exact h
                    have hsw3 : skipWs (X4 ++ (chars "```json\n" ++ Y))
                        = c3 :: (X5 ++ (chars "```json\n" ++ Y)) := by
                      rw [hskip X4, hdw4, List.cons_append]
                    by_cases hcm : c3 = ','
                    · subst hcm
                      have hX5d := hallskip X5 hc3X5.2
                      rcases ihF (X5.dropWhile isJsonWs) hX5d with hnoneF | ⟨fs, X6, heqF, hX6⟩
                      · left
                        simp [parseFields, heq, hsw1, hskip X3, heqV, hsw3, hskip X5, hnoneF]
                      · right
                        refine ⟨(k, v) :: fs, X6, ?_, hX6⟩
                        simp [parseFields, heq, hsw1, hskip X3, heqV, hsw3, hskip X5, heqF]
                    · by_cases hcb : c3 = '}'
                      · subst hcb
                        right
                        refine ⟨[(k, v)], X5, ?_, hc3X5.2⟩
                        simp [parseFields, heq, hsw1, hskip X3, heqV, hsw3]
                      · left
                        simp [parseFields, heq, hsw1, hskip X3, heqV, hsw3, hcm, hcb]
              · left
                simp [parseFields, heq, hsw1, hcol]
        · left
          simp [parseFields, hq]

theorem parseJson_cross (X Y : List Char) (hX : X.all noBtick = true) :
    parseJson (X ++ (chars "```json\n" ++ Y)) = none := by
  have hFY : (chars "```json\n" ++ Y).dropWhile isJsonWs = chars "```json\n" ++ Y := by
    rw [show chars "```json\n" ++ Y = btick :: (chars "``json\n" ++ Y) from rfl,
      List.dropWhile_cons, if_neg (by decide)]
  have hsw : skipWs (X ++ (chars "```json\n" ++ Y))
      = X.dropWhile isJsonWs ++ (chars "```json\n" ++ Y) :=
    dropWhile_append_stop isJsonWs X _ hFY
  unfold parseJson
  rw [hsw]
  have hXd : (X.dropWhile isJsonWs).all noBtick = true := all_dropWhile _ _ _ hX
  rcases (parse_cross Y (3 * (X ++ (chars "```json\n" ++ Y)).length + 3)).1
      (X.dropWhile isJsonWs) hXd with hnone | ⟨v, X', heq, hX'⟩
  · rw [hnone]
  · rw [heq]
    have hne : skipWs (X' ++ (chars "```json\n" ++ Y)) ≠ [] := by
      unfold skipWs
      apply dropWhile_ne_nil_of_mem isJsonWs _ btick
      · apply List.mem_append_right
        rw [show chars "```json\n" ++ Y = btick :: (chars "``json\n" ++ Y) from rfl]
        exact List.mem_cons_self _ _
      · decide
    simp [hne]

theorem pyStrip_eq (s t u : List Char) (h1 : s.dropWhile isPySpace = t)
    (h2 : t.reverse.dropWhile isPySpace = u) : pyStrip s = u.reverse := by
  unfold pyStrip dropTrailingWs
  rw [h1, h2]

theorem endsW_fence (A : List Char) : endsW (A ++ chars "\n```") (chars "```") = true := by
  unfold endsW
  rw [List.reverse_append, show (chars "\n```").reverse = chars "```" ++ ['\n'] from by decide,
    show (chars "```").reverse = chars "```" from by decide, List.append_assoc]
  exact isPre_refl_append _ _

theorem take_fence (A : List Char) :
    (A ++ chars "```").take ((A ++ chars "```").length - 3) = A := by
  have hl : (A ++ chars "```").length - 3 = A.length := by
    rw [List.length_append, show (chars "```").length = 3 from rfl]
    omega
  rw [hl, List.take_left]

theorem drop7_fence (R : List Char) : (chars "```json\n" ++ R).drop 7 = '\n' :: R := by
  rw [show chars "```json\n" = chars "```json" ++ ['\n'] from by decide, List.append_assoc,
    show (7 : Nat) = (chars "```json").length from rfl, List.drop_left]
  rfl

theorem isPre_f1 (R : List Char) :
    isPre (chars "```json") (chars "```json\n" ++ R) = true := by
  rw [show chars "```json\n" = chars "```json" ++ ['\n'] from by decide, List.append_assoc]
  exact isPre_refl_append _ _

theorem serJ_last (j : Json) (h : isObjOrArr j = true) :
    ∃ cl T', (serJ j).reverse = cl :: T' ∧ isPySpace cl = false := by
  cases j with
  | null => simp [isObjOrArr] at h
  | bool b => simp [isObjOrArr] at h
  | num n => simp [isObjOrArr] at h
  | str s => simp [isObjOrArr] at h
  | arr xs =>
    refine ⟨']', (serArr xs).reverse ++ ['['], ?_, by decide⟩
    simp [serJ]
  | obj fs =>
    refine ⟨'}', (serObj fs).reverse ++ ['{'], ?_, by decide⟩
    simp [serJ]

theorem pyStrip_nl (S : List Char) (c0 cl : Char) (T T' : List Char)
    (hS : S = c0 :: T) (hSr : S.reverse = cl :: T')
    (h0 : isPySpace c0 = false) (hl : isPySpace cl = false) :
    pyStrip ('\n' :: (S ++ ['\n'])) = S := by
  unfold pyStrip
  have h1 : (('\n' :: (S ++ ['\n']))).dropWhile isPySpace = S ++ ['\n'] := by
    rw [List.dropWhile_cons, if_pos (by decide), hS, List.cons_append, List.dropWhile_cons,
      if_neg (by simp [h0]), ← List.cons_append, ← hS]
  rw [h1]
  unfold dropTrailingWs
  have h2 : (S ++ ['\n']).reverse.dropWhile isPySpace = S.reverse := by
    rw [List.reverse_append, show (['\n'] : List Char).reverse = ['\n'] from rfl,
      List.singleton_append, List.dropWhile_cons, if_pos (by decide), hSr,
      List.dropWhile_cons, if_neg (by simp [hl]), ← hSr]
  rw [h2, List.reverse_reverse]

theorem pyStrip_tailnl (A : List Char) (c0 cl : Char) (T T' : List Char)
    (hA : A = c0 :: T) (hAr : A.reverse = cl :: T')
    (h0 : isPySpace c0 = false) (hl : isPySpace cl = false) :
    pyStrip (A ++ ['\n']) = A := by
  unfold pyStrip
  have h1 : (A ++ ['\n']).dropWhile isPySpace = A ++ ['\n'] := by
    rw [hA, List.cons_append, List.dropWhile_cons, if_neg (by simp [h0]),
      ← List.cons_append, ← hA]
  rw [h1]
  unfold dropTrailingWs
  have h2 : (A ++ ['\n']).reverse.dropWhile isPySpace = A.reverse := by
    rw [List.reverse_append, show (['\n'] : List Char).reverse = ['\n'] from rfl,
      List.singleton_append, List.dropWhile_cons, if_pos (by decide), hAr,
      List.dropWhile_cons, if_neg (by simp [hl]), ← hAr]
  rw [h2, List.reverse_reverse]

theorem pyStrip_id (A : List Char) (c0 d0 : Char) (T T' : List Char)
    (hA : A = c0 :: T) (hAr : A.reverse = d0 :: T')
    (h0 : isPySpace c0 = false) (hd0w : isPySpace d0 = false) :
    pyStrip A = A := by
  unfold pyStrip
  have h1 : A.dropWhile isPySpace = A := by
    rw [hA, List.dropWhile_cons, if_neg (by simp [h0])]
  rw [h1]
  unfold dropTrailingWs
  have h2 : A.reverse.dropWhile isPySpace = A.reverse := by
    rw [hAr, List.dropWhile_cons, if_neg (by simp [hd0w])]
  rw [h2, List.reverse_reverse]

theorem strat12_fenced_ww (p1 p2 : List Char) (j : Json)
    (htame : tameJson j = true) (hshape : isObjOrArr j = true)
    (hp : p1.dropWhile isPySpace = []) (hq : p2.reverse.dropWhile isPySpace = []) :
    strat12 (fencedInput p1 j p2) = some j := by
  have hI : fencedInput p1 j p2
      = p1 ++ (chars "```json\n" ++ (serJ j ++ (chars "\n```" ++ p2))) := by
    simp [fencedInput, List.append_assoc]
  have hbdw : (chars "```json\n" ++ (serJ j ++ (chars "\n```" ++ p2))).dropWhile isPySpace
      = chars "```json\n" ++ (serJ j ++ (chars "\n```" ++ p2)) := by
    rw [show chars "```json\n" ++ (serJ j ++ (chars "\n```" ++ p2))
        = btick :: (chars "``json\n" ++ (serJ j ++ (chars "\n```" ++ p2))) from rfl,
      List.dropWhile_cons, if_neg (by decide)]
  have hT : (fencedInput p1 j p2).dropWhile isPySpace
      = chars "```json\n" ++ (serJ j ++ (chars "\n```" ++ p2)) := by
    rw [hI]
    exact dropWhile_append_all isPySpace p1 _ hp hbdw
  have hTrev : (chars "```json\n" ++ (serJ j ++ (chars "\n```" ++ p2))).reverse
      = p2.reverse ++ ((chars "\n```").reverse
          ++ ((serJ j).reverse ++ (chars "```json\n").reverse)) := by
    simp [List.reverse_append, List.append_assoc]
  have hrev4 : (chars "\n```").reverse = btick :: chars "``\n" := by decide
  have hZdw : ((chars "\n```").reverse
      ++ ((serJ j).reverse ++ (chars "```json\n").reverse)).dropWhile isPySpace
      = (chars "\n```").reverse ++ ((serJ j).reverse ++ (chars "```json\n").reverse) := by
    rw [hrev4, List.cons_append, List.dropWhile_cons, if_neg (by decide), ← List.cons_append,
      ← hrev4]
  have hu : ((chars "```json\n" ++ (serJ j ++ (chars "\n```" ++ p2))).reverse).dropWhile
      isPySpace = (chars "\n```").reverse ++ ((serJ j).reverse ++ (chars "```json\n").reverse) := by
    rw [hTrev]
    exact dropWhile_append_all isPySpace p2.reverse _ hq hZdw
  have hps : pyStrip (fencedInput p1 j p2)
      = chars "```json\n" ++ (serJ j ++ chars "\n```") := by
    have h := pyStrip_eq _ _ _ hT hu
    rw [h]
    simp [List.reverse_append, List.reverse_reverse, List.append_assoc]
  obtain ⟨c0, T0, hS0, hst⟩ := serJ_head j
  obtain ⟨cl, T', hSr, hlw⟩ := serJ_last j hshape
  have he : endsW ('\n' :: (serJ j ++ chars "\n```")) (chars "```") = true := by
    rw [show ('\n' :: (serJ j ++ chars "\n```")) = ('\n' :: serJ j) ++ chars "\n```" from by
      rw [List.cons_append]]
    exact endsW_fence _
  have ht : ('\n' :: (serJ j ++ chars "\n```")) = ('\n' :: (serJ j ++ ['\n'])) ++ chars "```" := by
    rw [show chars "\n```" = ['\n'] ++ chars "```" from by decide]
    simp [List.append_assoc]
  simp only [strat12, hps]
  rw [isPre_f1 (serJ j ++ chars "\n```"), if_pos rfl, drop7_fence, he, if_pos rfl, ht,
    take_fence, pyStrip_nl (serJ j) c0 cl T0 T' hS0 hSr (starter_not_ws hst).1 hlw,
    parseJson_serJ j htame]

theorem strat12_fenced_wc (p1 p2 : List Char) (j : Json)
    (htame : tameJson j = true)
    (hp : p1.dropWhile isPySpace = []) (d0 : Char) (W0 : List Char)
    (hq : p2.reverse.dropWhile isPySpace = d0 :: W0)
    (hd0 : ¬(d0 = btick)) :
    strat12 (fencedInput p1 j p2) = none := by
  have hI : fencedInput p1 j p2
      = p1 ++ (chars "```json\n" ++ (serJ j ++ (chars "\n```" ++ p2))) := by
    simp [fencedInput, List.append_assoc]
  have hbdw : (chars "```json\n" ++ (serJ j ++ (chars "\n```" ++ p2))).dropWhile isPySpace
      = chars "```json\n" ++ (serJ j ++ (chars "\n```" ++ p2)) := by
    rw [show chars "```json\n" ++ (serJ j ++ (chars "\n```" ++ p2))
        = btick :: (chars "``json\n" ++ (serJ j ++ (chars "\n```" ++ p2))) from rfl,
      List.dropWhile_cons, if_neg (by decide)]
  have hT : (fencedInput p1 j p2).dropWhile isPySpace
      = chars "```json\n" ++ (serJ j ++ (chars "\n```" ++ p2)) := by
    rw [hI]
    exact dropWhile_append_all isPySpace p1 _ hp hbdw
  have hTrev : (chars "```json\n" ++ (serJ j ++ (chars "\n```" ++ p2))).reverse
      = p2.reverse ++ ((chars "\n```").reverse
          ++ ((serJ j).reverse ++ (chars "```json\n").reverse)) := by
    simp [List.reverse_append, List.append_assoc]
  have hu : ((chars "```json\n" ++ (serJ j ++ (chars "\n```" ++ p2))).reverse).dropWhile
      isPySpace = (d0 :: W0) ++ ((chars "\n```").reverse
        ++ ((serJ j).reverse ++ (chars "```json\n").reverse)) := by
    rw [hTrev, dropWhile_append_pos isPySpace p2.reverse _ (by rw [hq]; simp), hq]
  have hps : pyStrip (fencedInput p1 j p2)
      = chars "```json\n" ++ (serJ j ++ (chars "\n```" ++ (W0.reverse ++ [d0]))) := by
    have h := pyStrip_eq _ _ _ hT hu
    rw [h]
    simp [List.reverse_append, List.reverse_reverse, List.append_assoc]
  have hend : endsW ('\n' :: (serJ j ++ (chars "\n```" ++ (W0.reverse ++ [d0]))))
      (chars "```") = false := by
    unfold endsW
    rw [show ('\n' :: (serJ j ++ (chars "\n```" ++ (W0.reverse ++ [d0])))).reverse
        = d0 :: (W0 ++ ((chars "\n```").reverse ++ ((serJ j).reverse ++ ['\n']))) from by
      simp [List.reverse_append, List.reverse_reverse, List.append_assoc],
      show (chars "```").reverse = btick :: chars "``" from by decide]
    exact isPre_cons_ne _ _ _ _ (fun heq => hd0 heq.symm)
  obtain ⟨c0, T0, hS0, hst⟩ := serJ_head j
  have hrestdw : (serJ j ++ (chars "\n```" ++ (W0.reverse ++ [d0]))).dropWhile isPySpace
      = serJ j ++ (chars "\n```" ++ (W0.reverse ++ [d0])) := by
    rw [hS0, List.cons_append, List.dropWhile_cons,
      if_neg (by simp [(starter_not_ws hst).1]), ← List.cons_append, ← hS0]
  have hrestrev : ((serJ j ++ (chars "\n```" ++ (W0.reverse ++ [d0]))).reverse).dropWhile
      isPySpace = (serJ j ++ (chars "\n```" ++ (W0.reverse ++ [d0]))).reverse := by
    have hd0w : isPySpace d0 = false := by
      have hin : p2.reverse.dropWhile isPySpace = d0 :: W0 := hq
      exact (dropWhile_head_spec isPySpace p2.reverse d0 W0 hin).1
    rw [show (serJ j ++ (chars "\n```" ++ (W0.reverse ++ [d0]))).reverse
        = d0 :: (W0 ++ ((chars "\n```").reverse ++ (serJ j).reverse)) from by
      simp [List.reverse_append, List.reverse_reverse, List.append_assoc]]
    rw [List.dropWhile_cons, if_neg (by simp [hd0w])]
  have hc2strip : pyStrip ('\n' :: (serJ j ++ (chars "\n```" ++ (W0.reverse ++ [d0]))))
      = serJ j ++ (chars "\n```" ++ (W0.reverse ++ [d0])) := by
    have h1 : ('\n' :: (serJ j ++ (chars "\n```" ++ (W0.reverse ++ [d0])))).dropWhile
        isPySpace = serJ j ++ (chars "\n```" ++ (W0.reverse ++ [d0])) := by
      rw [List.dropWhile_cons, if_pos (by decide), hrestdw]
    have h := pyStrip_eq _ _ _ h1 hrestrev
    rw [h, List.reverse_reverse]
  have hpj : parseJson (serJ j ++ (chars "\n```" ++ (W0.reverse ++ [d0]))) = none := by
    unfold parseJson
    rw [skipWs_serJ]
    have hps2 := (parse_ser (3 * (serJ j ++ (chars "\n```" ++ (W0.reverse ++ [d0]))).length
        + 3)).1 j (chars "\n```" ++ (W0.reverse ++ [d0])) htame
      (by have h := sizeJ_le_len j; rw [List.length_append]; omega) rfl
    rw [hps2]
    have hne : skipWs (chars "\n```" ++ (W0.reverse ++ [d0])) ≠ [] := by
      unfold skipWs
      apply dropWhile_ne_nil_of_mem isJsonWs _ btick
      · apply List.mem_append_left
        decide
      · decide
    simp [hne]
  simp only [strat12, hps]
  rw [isPre_f1 (serJ j ++ (chars "\n```" ++ (W0.reverse ++ [d0]))), if_pos rfl, drop7_fence,
    hend, if_neg Bool.false_ne_true, hc2strip, hpj]

theorem strat12_fenced_cw (p1 p2 : List Char) (j : Json)
    (hshape : isObjOrArr j = true) (c0 : Char) (q : List Char)
    (hp : p1.dropWhile isPySpace = c0 :: q)
    (hcq : (c0 :: q).all noBtick = true) (hc0w : isPySpace c0 = false)
    (hq2 : p2.reverse.dropWhile isPySpace = []) :
    strat12 (fencedInput p1 j p2) = none := by
  have hc0 : ¬(c0 = btick) := by
    have h := List.all_eq_true.mp hcq c0 (List.mem_cons_self c0 q)
    simpa [noBtick] using h
  have hI : fencedInput p1 j p2
      = p1 ++ (chars "```json\n" ++ (serJ j ++ (chars "\n```" ++ p2))) := by
    simp [fencedInput, List.append_assoc]
  have hT : (fencedInput p1 j p2).dropWhile isPySpace
      = (c0 :: q) ++ (chars "```json\n" ++ (serJ j ++ (chars "\n```" ++ p2))) := by
    rw [hI, dropWhile_append_pos isPySpace p1 _ (by rw [hp]; simp), hp]
  have hTrev : ((c0 :: q) ++ (chars "```json\n" ++ (serJ j ++ (chars "\n```" ++ p2)))).reverse
      = p2.reverse ++ ((chars "\n```").reverse ++ ((serJ j).reverse
          ++ ((chars "```json\n").reverse ++ (q.reverse ++ [c0])))) := by
    simp [List.reverse_append, List.reverse_cons, List.append_assoc]
  have hrev4 : (chars "\n```").reverse = btick :: chars "``\n" := by decide
  have hZdw : ((chars "\n```").reverse ++ ((serJ j).reverse
      ++ ((chars "```json\n").reverse ++ (q.reverse ++ [c0])))).dropWhile isPySpace
      = (chars "\n```").reverse ++ ((serJ j).reverse
          ++ ((chars "```json\n").reverse ++ (q.reverse ++ [c0]))) := by
    rw [hrev4, List.cons_append, List.dropWhile_cons, if_neg (by decide), ← List.cons_append,
      ← hrev4]
  have hu : (((c0 :: q) ++ (chars "```json\n" ++ (serJ j
      ++ (chars "\n```" ++ p2)))).reverse).dropWhile isPySpace
      = (chars "\n```").reverse ++ ((serJ j).reverse
          ++ ((chars "```json\n").reverse ++ (q.reverse ++ [c0]))) := by
    rw [hTrev]
    exact dropWhile_append_all isPySpace p2.reverse _ hq2 hZdw
  have hps : pyStrip (fencedInput p1 j p2)
      = c0 :: (q ++ (chars "```json\n" ++ (serJ j ++ chars "\n```"))) := by
    have h := pyStrip_eq _ _ _ hT hu
    rw [h]
    simp [List.reverse_append, List.reverse_reverse, List.append_assoc]
  have hpre7 : isPre (chars "```json")
      (c0 :: (q ++ (chars "```json\n" ++ (serJ j ++ chars "\n```")))) = false := by
    rw [show chars "```json" = btick :: chars "``json" from by decide,
      isPre_cons_ne _ _ _ _ (fun heq => hc0 heq.symm)]
  have hpre3 : isPre (chars "```")
      (c0 :: (q ++ (chars "```json\n" ++ (serJ j ++ chars "\n```")))) = false := by
    rw [show chars "```" = btick :: chars "``" from by decide,
      isPre_cons_ne _ _ _ _ (fun heq => hc0 heq.symm)]
  have hsh : c0 :: (q ++ (chars "```json\n" ++ (serJ j ++ chars "\n```")))
      = (c0 :: (q ++ (chars "```json\n" ++ serJ j))) ++ chars "\n```" := by
    simp [List.append_assoc]
  have hsh2 : (c0 :: (q ++ (chars "```json\n" ++ serJ j))) ++ chars "\n```"
      = ((c0 :: (q ++ (chars "```json\n" ++ serJ j))) ++ ['\n']) ++ chars "```" := by
    rw [show chars "\n```" = ['\n'] ++ chars "```" from by decide]
    simp [List.append_assoc]
  obtain ⟨cl, T', hSr, hlw⟩ := serJ_last j hshape
  have hAr : (c0 :: (q ++ (chars "```json\n" ++ serJ j))).reverse
      = cl :: (T' ++ ((chars "```json\n").reverse ++ (q.reverse ++ [c0]))) := by
    simp [List.reverse_append, List.reverse_cons, List.append_assoc, hSr]
  have hpj : parseJson (c0 :: (q ++ (chars "```json\n" ++ serJ j))) = none := by
    rw [show c0 :: (q ++ (chars "```json\n" ++ serJ j))
        = (c0 :: q) ++ (chars "```json\n" ++ serJ j) from by rw [List.cons_append]]
    exact parseJson_cross (c0 :: q) (serJ j) hcq
  simp only [strat12, hps]
  rw [hpre7, if_neg Bool.false_ne_true, hpre3, if_neg Bool.false_ne_true, hsh, endsW_fence,
    if_pos rfl, hsh2, take_fence,
    pyStrip_tailnl _ c0 cl _ _ rfl hAr hc0w hlw, hpj]

theorem strat12_fenced_cc (p1 p2 : List Char) (j : Json)
    (c0 : Char) (q : List Char) (hp : p1.dropWhile isPySpace = c0 :: q)
    (hcq : (c0 :: q).all noBtick = true) (hc0w : isPySpace c0 = false)
    (d0 : Char) (W0 : List Char) (hq : p2.reverse.dropWhile isPySpace = d0 :: W0)
    (hd0 : ¬(d0 = btick)) (hd0w : isPySpace d0 = false) :
    strat12 (fencedInput p1 j p2) = none := by
  have hc0 : ¬(c0 = btick) := by
    have h := List.all_eq_true.mp hcq c0 (List.mem_cons_self c0 q)
    simpa [noBtick] using h
  have hI : fencedInput p1 j p2
      = p1 ++ (chars "```json\n" ++ (serJ j ++ (chars "\n```" ++ p2))) := by
    simp [fencedInput, List.append_assoc]
  have hT : (fencedInput p1 j p2).dropWhile isPySpace
      = (c0 :: q) ++ (chars "```json\n" ++ (serJ j ++ (chars "\n```" ++ p2))) := by
    rw [hI, dropWhile_append_pos isPySpace p1 _ (by rw [hp]; simp), hp]
  have hTrev : ((c0 :: q) ++ (chars "```json\n" ++ (serJ j ++ (chars "\n```" ++ p2)))).reverse
      = p2.reverse ++ ((chars "\n```").reverse ++ ((serJ j).reverse
          ++ ((chars "```json\n").reverse ++ (q.reverse ++ [c0])))) := by
    simp [List.reverse_append, List.reverse_cons, List.append_assoc]
  have hu : (((c0 :: q) ++ (chars "```json\n" ++ (serJ j
      ++ (chars "\n```" ++ p2)))).reverse).dropWhile isPySpace
      = (d0 :: W0) ++ ((chars "\n```").reverse ++ ((serJ j).reverse
          ++ ((chars "```json\n").reverse ++ (q.reverse ++ [c0])))) := by
    rw [hTrev, dropWhile_append_pos isPySpace p2.reverse _ (by rw [hq]; simp), hq]
  have hps : pyStrip (fencedInput p1 j p2)
      = c0 :: (q ++ (chars "```json\n" ++ (serJ j
          ++ (chars "\n```" ++ (W0.reverse ++ [d0]))))) := by
    have h := pyStrip_eq _ _ _ hT hu
    rw [h]
    simp [List.reverse_append, List.reverse_reverse, List.append_assoc]
  have hpre7 : isPre (chars "```json") (c0 :: (q ++ (chars "```json\n" ++ (serJ j
      ++ (chars "\n```" ++ (W0.reverse ++ [d0])))))) = false := by
    rw [show chars "```json" = btick :: chars "``json" from by decide,
      isPre_cons_ne _ _ _ _ (fun heq => hc0 heq.symm)]
  have hpre3 : isPre (chars "```") (c0 :: (q ++ (chars "```json\n" ++ (serJ j
      ++ (chars "\n```" ++ (W0.reverse ++ [d0])))))) = false := by
    rw [show chars "```" = btick :: chars "``" from by decide,
      isPre_cons_ne _ _ _ _ (fun heq => hc0 heq.symm)]
  have hend : endsW (c0 :: (q ++ (chars "```json\n" ++ (serJ j
      ++ (chars "\n```" ++ (W0.reverse ++ [d0])))))) (chars "```") = false := by
    unfold endsW
    rw [show (c0 :: (q ++ (chars "```json\n" ++ (serJ j
        ++ (chars "\n```" ++ (W0.reverse ++ [d0])))))).reverse
        = d0 :: (W0 ++ ((chars "\n```").reverse ++ ((serJ j).reverse
            ++ ((chars "```json\n").reverse ++ (q.reverse ++ [c0]))))) from by
      simp [List.reverse_append, List.reverse_cons, List.reverse_reverse, List.append_assoc],
      show (chars "```").reverse = btick :: chars "``" from by decide]
    exact isPre_cons_ne _ _ _ _ (fun heq => hd0 heq.symm)
  have hid : pyStrip (c0 :: (q ++ (chars "```json\n" ++ (serJ j
      ++ (chars "\n```" ++ (W0.reverse ++ [d0]))))))
      = c0 :: (q ++ (chars "```json\n" ++ (serJ j
          ++ (chars "\n```" ++ (W0.reverse ++ [d0]))))) := by
    apply pyStrip_id _ c0 d0 _ (W0 ++ ((chars "\n```").reverse ++ ((serJ j).reverse
      ++ ((chars "```json\n").reverse ++ (q.reverse ++ [c0]))))) rfl _ hc0w hd0w
    simp [List.reverse_append, List.reverse_cons, List.reverse_reverse, List.append_assoc]
  have hpj : parseJson (c0 :: (q ++ (chars "```json\n" ++ (serJ j
      ++ (chars "\n```" ++ (W0.reverse ++ [d0])))))) = none := by
    rw [show c0 :: (q ++ (chars "```json\n" ++ (serJ j
        ++ (chars "\n```" ++ (W0.reverse ++ [d0])))))
        = (c0 :: q) ++ (chars "```json\n" ++ (serJ j
            ++ (chars "\n```" ++ (W0.reverse ++ [d0])))) from by rw [List.cons_append]]
    exact parseJson_cross (c0 :: q) _ hcq
  simp only [strat12, hps]
  rw [hpre7, if_neg Bool.false_ne_true, hpre3, if_neg Bool.false_ne_true, hend,
    if_neg Bool.false_ne_true, hid, hpj]

theorem extractCore_fenced (p1 p2 : List Char) (j : Json)
    (htame : tameJson j = true) (hshape : isObjOrArr j = true)
    (h1 : p1.all noBtick = true) (h2 : p2.all noBtick = true) :
    extractCore (fencedInput p1 j p2) = some j := by
  cases hp : p1.dropWhile isPySpace with
  | nil =>
    cases hq : p2.reverse.dropWhile isPySpace with
    | nil =>
      have h12 := strat12_fenced_ww p1 p2 j htame hshape hp hq
      unfold extractCore
      rw [h12]
    | cons d0 W0 =>
      obtain ⟨hd0w, hd0m⟩ := dropWhile_head_spec isPySpace p2.reverse d0 W0 hq
      have hd0 : ¬(d0 = btick) := by
        have h := List.all_eq_true.mp h2 d0 (List.mem_reverse.mp hd0m)
        simpa [noBtick] using h
      have h12 := strat12_fenced_wc p1 p2 j htame hp d0 W0 hq hd0
      have h3 := strat3_fenced p1 p2 j htame hshape h1
      unfold extractCore
      rw [h12, h3]
  | cons c0 q =>
    have hcq : (c0 :: q).all noBtick = true := by
      rw [← hp]
      exact all_dropWhile noBtick isPySpace p1 h1
    have hc0w : isPySpace c0 = false :=
      (dropWhile_head_spec isPySpace p1 c0 q hp).1
    cases hq : p2.reverse.dropWhile isPySpace with
    | nil =>
      have h12 := strat12_fenced_cw p1 p2 j hshape c0 q hp hcq hc0w hq
      have h3 := strat3_fenced p1 p2 j htame hshape h1
      unfold extractCore
      rw [h12, h3]
    | cons d0 W0 =>
      obtain ⟨hd0w, hd0m⟩ := dropWhile_head_spec isPySpace p2.reverse d0 W0 hq
      have hd0 : ¬(d0 = btick) := by
        have h := List.all_eq_true.mp h2 d0 (List.mem_reverse.mp hd0m)
        simpa [noBtick] using h
      have h12 := strat12_fenced_cc p1 p2 j c0 q hp hcq hc0w d0 W0 hq hd0 hd0w
      have h3 := strat3_fenced p1 p2 j htame hshape h1
      unfold extractCore
      rw [h12, h3]

/-! ## C5: extraction round-trip through a fenced code block -/

/-- C5 counterexample: the claim quantifies over every JSON value in a fenced
block with arbitrary surrounding prose, but a fenced scalar is not recovered:
for the serialized value `42` inside a ```json fence with the claim's own
surrounding prose, every strategy fails (strategies 1-2 parse prose,
strategies 3-4 only match `\x7b...\x7d` or `[...]` bodies, strategy 5 finds no
bracket), and the engine raises the preview-bearing failure instead of
returning `42`. -/
theorem c5_counterexample :
    extract_json_from_response (chars "Sure! ```json\n42\n``` Hope that helps!")
      = Except.error (chars "No valid JSON found in response. Response starts with: Sure! ```json\n42\n``` Hope that helps!") := by
  rfl

/-- C5 (amended): the round-trip holds for every JSON object or array - the
shapes the bracket-seeking strategies can recover, scalars being the
counterexample - whose strings avoid the backquote character (and consist of
characters this compact serializer can represent: any non-control character,
including spaces, quotes, braces and brackets, plus the five control
characters with single-character escapes), serialized inside a ```json fenced
block between arbitrary backquote-free prose: whether the prose is empty,
whitespace-only, JSON-like, or full of quotes, braces and brackets,
`extract_json_from_response` returns a value deep-equal to the original
(via strategy 1/2 when both prose sides strip to nothing, via the
fenced-block strategy 3 otherwise). -/
theorem c5_amended (p1 p2 : List Char) (j : Json)
    (htame : tameJson j = true) (hshape : isObjOrArr j = true)
    (h1 : p1.all noBtick = true) (h2 : p2.all noBtick = true) :
    extract_json_from_response (fencedInput p1 j p2) = Except.ok j := by
  unfold extract_json_from_response
  rw [extractCore_fenced p1 p2 j htame hshape h1 h2]

/-- C5 witness: the amended round-trip at the claim's example value
`\x7b"a":1,"b":[1,2]\x7d` with prose `Sure! ` and ` Hope that helps!`. -/
theorem c5_witness :
    extract_json_from_response (fencedInput (chars "Sure! ")
        (Json.obj [(chars "a", Json.num 1), (chars "b", Json.arr [Json.num 1, Json.num 2])])
        (chars " Hope that helps!"))
      = Except.ok (Json.obj [(chars "a", Json.num 1),
          (chars "b", Json.arr [Json.num 1, Json.num 2])]) :=
  c5_amended (chars "Sure! ") (chars " Hope that helps!")
    (Json.obj [(chars "a", Json.num 1), (chars "b", Json.arr [Json.num 1, Json.num 2])])
    (by decide) (by decide) (by decide) (by decide)
